import Mathlib

/-!
Verification development for the resvg conversion core: a shallow embedding
of the forward resolver (src/convert/mod.rs, src/convert/gradient.rs), the
inverse serializer (src/dom/dump.rs) and the Qt render helpers
(src/render_qt/fill.rs, src/render_qt/image.rs), together with theorems
settling the specification claims.

Machine floats (f64) are modelled as rational numbers; the ULP-based fuzzy
comparison of svgdom is modelled as an epsilon-tolerant comparison on
rationals. Collaborator crates (svgdom attribute storage, qt) are modelled
at their interface boundary.
-/

namespace Resvg

/-- Color as in svgdom: three 8-bit channels. -/
structure Color where
  red : Nat
  green : Nat
  blue : Nat
deriving DecidableEq, Repr

/-- 2D affine transform as in svgdom (a b c d e f). -/
structure Transform where
  a : Rat
  b : Rat
  c : Rat
  d : Rat
  e : Rat
  f : Rat
deriving DecidableEq, Repr

/-- The identity transform, the value of Transform::default(). -/
def Transform.identity : Transform := ⟨1, 0, 0, 1, 0, 0⟩

instance : Inhabited Transform := ⟨Transform.identity⟩

/-- svgdom Transform::is_default. -/
def Transform.is_default (t : Transform) : Bool := t = Transform.identity

/-- math::Rect. -/
structure Rect where
  x : Rat
  y : Rat
  w : Rat
  h : Rat
deriving DecidableEq, Repr

/-- math::Size. -/
structure Size where
  w : Rat
  h : Rat
deriving DecidableEq, Repr

/-- The epsilon of the epsilon-tolerant float comparison (models svgdom FuzzyEq). -/
def FUZZY_EPS : Rat := 1 / 1000000

/-- svgdom FuzzyEq::fuzzy_eq, modelled as an epsilon-tolerant comparison. -/
def fuzzy_eq (a b : Rat) : Bool := decide (|a - b| ≤ FUZZY_EPS)

/-- svgdom FuzzyEq::fuzzy_ne. -/
def fuzzy_ne (a b : Rat) : Bool := ! fuzzy_eq a b

/-- Element tag identifiers (short::EId), restricted to the tags this core touches. -/
inductive EId where
  | Svg | Defs | LinearGradient | RadialGradient | ClipPath | Pattern | Stop
  | G | Line | Rect | Polyline | Polygon | Circle | Ellipse
  | Use | Switch | Path | Text | Tspan | Image | Title | Desc | Metadata
  | Other
deriving DecidableEq, Repr

/-- Attribute identifiers (short::AId), restricted to the attributes this core touches. -/
inductive AId where
  | Width | Height | ViewBox | Xmlns | XmlnsXlink | XmlnsResvg | ResvgVersion
  | X | Y | X1 | Y1 | X2 | Y2 | Cx | Cy | R | Fx | Fy
  | GradientUnits | GradientTransform | SpreadMethod
  | Offset | StopColor | StopOpacity
  | ClipPath | ClipPathUnits | ClipRule
  | PatternUnits | PatternContentUnits | PatternTransform
  | Transform | Opacity | D
  | Fill | FillOpacity | FillRule
  | Stroke | StrokeOpacity | StrokeDashoffset | StrokeMiterlimit | StrokeWidth
  | StrokeLinecap | StrokeLinejoin | StrokeDasharray
  | TextAnchor | FontFamily | FontSize | FontStyle | FontVariant | FontWeight | FontStretch
  | XlinkHref
deriving DecidableEq, Repr

/-- Predefined keyword values (svgdom::ValueId), restricted to the ones this core touches. -/
inductive ValueId where
  | UserSpaceOnUse | ObjectBoundingBox
  | Pad | Reflect | Repeat
  | None | Evenodd | Nonzero
  | Butt | Round | Square
  | Miter | Bevel
  | Start | Middle | End
  | Normal | Italic | Oblique | SmallCaps
  | Bold | Bolder | Lighter
  | N100 | N200 | N300 | N400 | N500 | N600 | N700 | N800 | N900
  | Wider | Narrower
  | UltraCondensed | ExtraCondensed | Condensed | SemiCondensed
  | SemiExpanded | Expanded | ExtraExpanded | UltraExpanded
deriving DecidableEq, Repr

/-- dom::PathSegment. -/
inductive PathSegment where
  | moveTo (x y : Rat)
  | lineTo (x y : Rat)
  | curveTo (x1 y1 x2 y2 x y : Rat)
  | closePath
deriving DecidableEq, Repr

/-- Typed attribute values (svgdom::AValue). A function link (FuncLink) carries the
tag name and identifier of the node it points at, which is exactly the information
the conversion core reads from it. The view box value is stored structurally (the
string codec of svgdom is out of scope). -/
inductive AValue where
  | number (n : Rat)
  | numberList (ns : List Rat)
  | color (c : Color)
  | transform (t : Transform)
  | predef (v : ValueId)
  | funcLink (tag : EId) (id : String)
  | pathData (d : List PathSegment)
  | str (s : String)
  | viewBox (r : Rect)
deriving DecidableEq, Repr

/-! ## Generic tree (svgdom documents)

A generic tree node carries a tag, an identifier, the derived
"is referenced" flag computed by the upstream preprocessor, an ordered
attribute list, the concatenated character data of its text children
(svgdom stores character data in separate text nodes; the conversion core
only ever reads it as the text of a span), and its element children. -/

mutual

inductive GNode where
  | mk (tag : EId) (id : String) (referenced : Bool)
       (attrs : List (AId × AValue)) (text : String) (children : GForest)
deriving DecidableEq, Repr

inductive GForest where
  | nil
  | cons (n : GNode) (rest : GForest)
deriving DecidableEq, Repr

end

def GNode.tag : GNode → EId
  | .mk t _ _ _ _ _ => t

def GNode.id : GNode → String
  | .mk _ i _ _ _ _ => i

def GNode.referenced : GNode → Bool
  | .mk _ _ r _ _ _ => r

def GNode.attrs : GNode → List (AId × AValue)
  | .mk _ _ _ a _ _ => a

def GNode.text : GNode → String
  | .mk _ _ _ _ s _ => s

def GNode.children : GNode → GForest
  | .mk _ _ _ _ _ c => c

/-- Conversion of a forest to a plain list of nodes. -/
def GForest.toList : GForest → List GNode
  | .nil => []
  | .cons n rest => n :: GForest.toList rest

/-- First node of a forest satisfying a predicate. -/
def GForest.find? (p : GNode → Bool) : GForest → Option GNode
  | .nil => none
  | .cons n rest => if p n then some n else GForest.find? p rest

/-! ## Attribute access (svgdom GetValue trait, modelled at the interface) -/

/-- Attributes::get_type: raw typed lookup of an attribute value. -/
def get_type (attrs : List (AId × AValue)) (aid : AId) : Option AValue :=
  (attrs.find? (fun p => p.1 = aid)).map (·.2)

/-- GetValue::get_number. -/
def get_number (attrs : List (AId × AValue)) (aid : AId) : Option Rat :=
  match get_type attrs aid with
  | some (.number n) => some n
  | _ => none

/-- GetValue::get_color. -/
def get_color (attrs : List (AId × AValue)) (aid : AId) : Option Color :=
  match get_type attrs aid with
  | some (.color c) => some c
  | _ => none

/-- GetValue::get_transform. -/
def get_transform (attrs : List (AId × AValue)) (aid : AId) : Option Transform :=
  match get_type attrs aid with
  | some (.transform t) => some t
  | _ => none

/-- GetValue::get_predef. -/
def get_predef (attrs : List (AId × AValue)) (aid : AId) : Option ValueId :=
  match get_type attrs aid with
  | some (.predef v) => some v
  | _ => none

/-- GetValue::get_path. -/
def get_path (attrs : List (AId × AValue)) (aid : AId) : Option (List PathSegment) :=
  match get_type attrs aid with
  | some (.pathData d) => some d
  | _ => none

/-- GetValue::get_string. -/
def get_str (attrs : List (AId × AValue)) (aid : AId) : Option String :=
  match get_type attrs aid with
  | some (.str s) => some s
  | _ => none

/-- GetValue::get_number_list. -/
def get_number_list (attrs : List (AId × AValue)) (aid : AId) : Option (List Rat) :=
  match get_type attrs aid with
  | some (.numberList ns) => some ns
  | _ => none

/-- GetViewBox::get_viewbox lookup part: the structurally stored view box value. -/
def get_viewbox_attr (attrs : List (AId × AValue)) : Option Rect :=
  match get_type attrs AId.ViewBox with
  | some (.viewBox r) => some r
  | _ => none

end Resvg

namespace Resvg

/-! ## Scene Document (the dom data model) -/

/-- dom::Units. -/
inductive Units where
  | UserSpaceOnUse | ObjectBoundingBox
deriving DecidableEq, Repr

/-- dom::SpreadMethod. -/
inductive SpreadMethod where
  | Pad | Reflect | Repeat
deriving DecidableEq, Repr

/-- dom::FillRule. -/
inductive FillRule where
  | NonZero | EvenOdd
deriving DecidableEq, Repr

/-- dom::LineCap. -/
inductive LineCap where
  | Butt | Round | Square
deriving DecidableEq, Repr

/-- dom::LineJoin. -/
inductive LineJoin where
  | Miter | Round | Bevel
deriving DecidableEq, Repr

/-- dom::TextAnchor. -/
inductive TextAnchor where
  | Start | Middle | End
deriving DecidableEq, Repr

/-- dom::FontStyle. -/
inductive FontStyle where
  | Normal | Italic | Oblique
deriving DecidableEq, Repr

/-- dom::FontVariant. -/
inductive FontVariant where
  | Normal | SmallCaps
deriving DecidableEq, Repr

/-- dom::FontWeight. -/
inductive FontWeight where
  | Normal | Bold | Bolder | Lighter
  | W100 | W200 | W300 | W400 | W500 | W600 | W700 | W800 | W900
deriving DecidableEq, Repr

/-- dom::FontStretch. -/
inductive FontStretch where
  | Normal | Wider | Narrower
  | UltraCondensed | ExtraCondensed | Condensed | SemiCondensed
  | SemiExpanded | Expanded | ExtraExpanded | UltraExpanded
deriving DecidableEq, Repr

/-- dom::Paint: a solid color or a positional link into the definitions list. -/
inductive Paint where
  | color (c : Color)
  | link (idx : Nat)
deriving DecidableEq, Repr

/-- dom::Fill. -/
structure Fill where
  paint : Paint
  opacity : Rat
  rule : FillRule
deriving DecidableEq, Repr

/-- dom::Stroke. -/
structure Stroke where
  paint : Paint
  opacity : Rat
  dashoffset : Rat
  miterlimit : Rat
  width : Rat
  linecap : LineCap
  linejoin : LineJoin
  dasharray : Option (List Rat)
deriving DecidableEq, Repr

/-- dom::Font. -/
structure Font where
  family : String
  size : Rat
  style : FontStyle
  variant : FontVariant
  weight : FontWeight
  stretch : FontStretch
deriving DecidableEq, Repr

/-- A styled text span (dom::TSpan). -/
structure TSpan where
  text : String
  fill : Option Fill
  stroke : Option Stroke
  font : Font
deriving DecidableEq, Repr

/-- A text chunk: position, anchor and its spans (dom::TextChunk). -/
structure TextChunk where
  x : Rat
  y : Rat
  anchor : TextAnchor
  spans : List TSpan
deriving DecidableEq, Repr

/-- dom::ImageDataKind. -/
inductive ImageDataKind where
  | PNG | JPEG
deriving DecidableEq, Repr

/-- dom::ImageData: a file path or raw embedded bytes. -/
inductive ImageData where
  | path (p : String)
  | raw (data : List Nat) (kind : ImageDataKind)
deriving DecidableEq, Repr

/-- dom::Image. -/
structure Image where
  rect : Rect
  data : ImageData
deriving DecidableEq, Repr

/-- dom::Stop, a gradient stop. -/
structure Stop where
  offset : Rat
  color : Color
  opacity : Rat
deriving DecidableEq, Repr

/-- dom::BaseGradient. -/
structure BaseGradient where
  units : Units
  transform : Transform
  spread_method : SpreadMethod
deriving DecidableEq, Repr

/-- dom::LinearGradient (its stop children are stored inline). -/
structure LinearGradient where
  id : String
  x1 : Rat
  y1 : Rat
  x2 : Rat
  y2 : Rat
  d : BaseGradient
  stops : List Stop
deriving DecidableEq, Repr

/-- dom::RadialGradient (its stop children are stored inline). -/
structure RadialGradient where
  id : String
  cx : Rat
  cy : Rat
  r : Rat
  fx : Rat
  fy : Rat
  d : BaseGradient
  stops : List Stop
deriving DecidableEq, Repr

/-!
Content tree nodes of the Scene Document. Nesting is represented
structurally: the children of a group are the nodes the resolver inserted at
depth plus one under it.
-/

mutual

inductive SceneNode where
  | group (id : String) (transform : Transform) (opacity : Option Rat)
          (clip_path : Option Nat) (children : SceneForest)
  | path (id : String) (transform : Transform) (d : List PathSegment)
         (fill : Option Fill) (stroke : Option Stroke)
  | text (id : String) (transform : Transform) (chunks : List TextChunk)
  | image (id : String) (transform : Transform) (img : Image)
deriving DecidableEq, Repr

inductive SceneForest where
  | nil
  | cons (n : SceneNode) (rest : SceneForest)
deriving DecidableEq, Repr

end

/-- Definitions-list entries (dom::DefsNodeKind). -/
inductive DefsNode where
  | linearGradient (lg : LinearGradient)
  | radialGradient (rg : RadialGradient)
  | clipPath (id : String) (units : Units) (transform : Transform) (children : SceneForest)
  | pattern (id : String) (rect : Rect) (view_box : Option Rect)
            (units : Units) (content_units : Units) (transform : Transform)
            (children : SceneForest)
deriving DecidableEq, Repr

/-- The identifier of a definitions entry. -/
def DefsNode.defsId : DefsNode → String
  | .linearGradient lg => lg.id
  | .radialGradient rg => rg.id
  | .clipPath i _ _ _ => i
  | .pattern i _ _ _ _ _ _ => i

/-- The generic-tree tag a definitions entry serializes to. -/
def DefsNode.defsTag : DefsNode → EId
  | .linearGradient _ => .LinearGradient
  | .radialGradient _ => .RadialGradient
  | .clipPath _ _ _ _ => .ClipPath
  | .pattern _ _ _ _ _ _ _ => .Pattern

/-- Root metadata (dom::Svg). -/
structure Svg where
  size : Size
  view_box : Rect
  dpi : Rat
deriving DecidableEq, Repr

/-- dom::Document: root metadata, definitions list, content tree. -/
structure Document where
  svg : Svg
  defs : List DefsNode
  content : SceneForest
deriving DecidableEq, Repr

/-- Modelled from the spec: dom::Document::defs_index (dom/mod.rs is not under
src/). Per the data-model section, the defs index is the positional handle of
the definitions-list entry carrying the given identifier. -/
def defs_index (defs : List DefsNode) (id : String) : Option Nat :=
  defs.findIdx? (fun e => e.defsId == id)

/-- Conversion error kinds (ErrorKind). -/
inductive Error where
  | MissingSvgNode
  | InvalidSize
  | InvalidViewBox
deriving DecidableEq, Repr

/-- Conversion options (only the dpi is read by this core). -/
structure Options where
  dpi : Rat

/-- Out-of-scope collaborators of the forward resolver: the geometric
shape-to-path flattening (convert/shapes.rs), specified only at its
interface boundary. -/
structure Collab where
  shapes : GNode → Option (List PathSegment)

end Resvg

namespace Resvg

/-- Conversion of a scene forest to a plain list of nodes. -/
def SceneForest.toList : SceneForest → List SceneNode
  | .nil => []
  | .cons n rest => n :: SceneForest.toList rest

/-! ## Forward resolver: value conversion (convert/gradient.rs, convert/mod.rs) -/

/-- convert::convert_element_units (convert/mod.rs): the two recognized unit
keywords; anything else falls back to user-space-on-use with a diagnostic. -/
def convert_element_units (attrs : List (AId × AValue)) (aid : AId) : Units :=
  match get_predef attrs aid with
  | some .UserSpaceOnUse => .UserSpaceOnUse
  | some .ObjectBoundingBox => .ObjectBoundingBox
  | _ => .UserSpaceOnUse

/-- gradient::convert_spread_method: missing attribute defaults to Pad,
unrecognized values fall back to Pad. -/
def convert_spread_method (attrs : List (AId × AValue)) : SpreadMethod :=
  match (get_predef attrs AId.SpreadMethod).getD ValueId.Pad with
  | .Pad => .Pad
  | .Reflect => .Reflect
  | .Repeat => .Repeat
  | _ => .Pad

/-- gradient::convert_stops: every stop child becomes a Stop with documented
defaults for missing attributes; a child that is not a stop element is skipped
with a diagnostic. -/
def convert_stops : GForest → List Stop
  | .nil => []
  | .cons s rest =>
    if s.tag ≠ EId.Stop then convert_stops rest
    else
      { offset := (get_number s.attrs .Offset).getD 0
        color := (get_color s.attrs .StopColor).getD ⟨0, 0, 0⟩
        opacity := (get_number s.attrs .StopOpacity).getD 1 } :: convert_stops rest

/-- gradient::convert_linear. The stop children the source appends right after
the gradient node are stored inline in the entry. -/
def convert_linear (n : GNode) : DefsNode :=
  .linearGradient
    { id := n.id
      x1 := (get_number n.attrs .X1).getD 0
      y1 := (get_number n.attrs .Y1).getD 0
      x2 := (get_number n.attrs .X2).getD 1
      y2 := (get_number n.attrs .Y2).getD 0
      d :=
        { units := convert_element_units n.attrs .GradientUnits
          transform := (get_transform n.attrs .GradientTransform).getD Transform.identity
          spread_method := convert_spread_method n.attrs }
      stops := convert_stops n.children }

/-- gradient::convert_radial. -/
def convert_radial (n : GNode) : DefsNode :=
  .radialGradient
    { id := n.id
      cx := (get_number n.attrs .Cx).getD (1/2)
      cy := (get_number n.attrs .Cy).getD (1/2)
      r := (get_number n.attrs .R).getD (1/2)
      fx := (get_number n.attrs .Fx).getD (1/2)
      fy := (get_number n.attrs .Fy).getD (1/2)
      d :=
        { units := convert_element_units n.attrs .GradientUnits
          transform := (get_transform n.attrs .GradientTransform).getD Transform.identity
          spread_method := convert_spread_method n.attrs }
      stops := convert_stops n.children }

/-- Modelled from the spec: convert/fill.rs is not under src/. Per the value
codec table, fill-opacity defaults to 1 and the fill rule to non-zero; per the
data model, a missing fill or an explicit keyword none is the materialized
no-paint state, and a broken paint reference degrades to no paint. A resolvable
function link becomes a positional defs link. -/
def convert_fill (defs : List DefsNode) (attrs : List (AId × AValue)) : Option Fill :=
  let opacity := (get_number attrs .FillOpacity).getD 1
  let rule : FillRule :=
    match get_predef attrs .FillRule with
    | some .Evenodd => .EvenOdd
    | _ => .NonZero
  match get_type attrs .Fill with
  | some (.color c) => some { paint := .color c, opacity := opacity, rule := rule }
  | some (.funcLink _ id) =>
    match defs_index defs id with
    | some idx => some { paint := .link idx, opacity := opacity, rule := rule }
    | none => none
  | _ => none

/-- Modelled from the spec: convert/stroke.rs is not under src/. Per the value
codec table: width 1, miter limit 4, dash offset 0, opacity 1, line cap butt,
line join miter; a missing stroke or keyword none is the materialized no-paint
state, and a broken paint reference degrades to no paint. -/
def convert_stroke (defs : List DefsNode) (attrs : List (AId × AValue)) : Option Stroke :=
  let mkStroke (paint : Paint) : Stroke :=
    { paint := paint
      opacity := (get_number attrs .StrokeOpacity).getD 1
      dashoffset := (get_number attrs .StrokeDashoffset).getD 0
      miterlimit := (get_number attrs .StrokeMiterlimit).getD 4
      width := (get_number attrs .StrokeWidth).getD 1
      linecap :=
        match get_predef attrs .StrokeLinecap with
        | some .Round => .Round
        | some .Square => .Square
        | _ => .Butt
      linejoin :=
        match get_predef attrs .StrokeLinejoin with
        | some .Round => .Round
        | some .Bevel => .Bevel
        | _ => .Miter
      dasharray := get_number_list attrs .StrokeDasharray }
  match get_type attrs .Stroke with
  | some (.color c) => some (mkStroke (.color c))
  | some (.funcLink _ id) =>
    match defs_index defs id with
    | some idx => some (mkStroke (.link idx))
    | none => none
  | _ => none

/-- Modelled from the spec: convert/text.rs is not under src/. Font keyword
attributes are closed variants with Normal as the exhaustively matched default. -/
def convert_font (attrs : List (AId × AValue)) : Font :=
  { family := (get_str attrs .FontFamily).getD ""
    size := (get_number attrs .FontSize).getD 0
    style :=
      match get_predef attrs .FontStyle with
      | some .Italic => .Italic
      | some .Oblique => .Oblique
      | _ => .Normal
    variant :=
      match get_predef attrs .FontVariant with
      | some .SmallCaps => .SmallCaps
      | _ => .Normal
    weight :=
      match get_predef attrs .FontWeight with
      | some .Bold => .Bold
      | some .Bolder => .Bolder
      | some .Lighter => .Lighter
      | some .N100 => .W100
      | some .N200 => .W200
      | some .N300 => .W300
      | some .N400 => .W400
      | some .N500 => .W500
      | some .N600 => .W600
      | some .N700 => .W700
      | some .N800 => .W800
      | some .N900 => .W900
      | _ => .Normal
    stretch :=
      match get_predef attrs .FontStretch with
      | some .Wider => .Wider
      | some .Narrower => .Narrower
      | some .UltraCondensed => .UltraCondensed
      | some .ExtraCondensed => .ExtraCondensed
      | some .Condensed => .Condensed
      | some .SemiCondensed => .SemiCondensed
      | some .SemiExpanded => .SemiExpanded
      | some .Expanded => .Expanded
      | some .ExtraExpanded => .ExtraExpanded
      | some .UltraExpanded => .UltraExpanded
      | _ => .Normal }

/-- Modelled from the spec: convert/text.rs is not under src/. A span carries
its text and its own fill, stroke and font attributes. -/
def convert_tspan (defs : List DefsNode) (n : GNode) : TSpan :=
  { text := n.text
    fill := convert_fill defs n.attrs
    stroke := convert_stroke defs n.attrs
    font := convert_font n.attrs }

/-- Modelled from the spec: convert/text.rs is not under src/. A chunk carries
position and anchor and contains its spans. -/
def convert_text_chunk (defs : List DefsNode) (n : GNode) : TextChunk :=
  { x := (get_number n.attrs .X).getD 0
    y := (get_number n.attrs .Y).getD 0
    anchor :=
      match get_predef n.attrs .TextAnchor with
      | some .Middle => .Middle
      | some .End => .End
      | _ => .Start
    spans := ((n.children.toList.filter (fun c => c.tag == EId.Tspan)).map (convert_tspan defs)) }

/-- Modelled from the spec: convert/text.rs is not under src/. Text is a list
of chunks of styled spans, emitted at the current depth. -/
def convert_text (defs : List DefsNode) (n : GNode) : SceneNode :=
  .text n.id ((get_transform n.attrs .Transform).getD Transform.identity)
    ((n.children.toList.filter (fun c => c.tag == EId.Tspan)).map (convert_text_chunk defs))

/-- Modelled from the spec: convert/image.rs is not under src/. An image node
carries its declared rectangle and a reference to the image data; image codec
decoding is out of scope, so the reference string is stored as given. -/
def convert_image (n : GNode) : Option SceneNode :=
  match get_str n.attrs .XlinkHref with
  | some href =>
    some (.image n.id ((get_transform n.attrs .Transform).getD Transform.identity)
      { rect :=
          { x := (get_number n.attrs .X).getD 0
            y := (get_number n.attrs .Y).getD 0
            w := (get_number n.attrs .Width).getD 0
            h := (get_number n.attrs .Height).getD 0 }
        data := .path href })
  | none => none

/-- Modelled from the spec: convert/path.rs is not under src/. A path node
carries its identifier, transform, path data, fill and stroke. -/
def convert_path (defs : List DefsNode) (n : GNode) (d : List PathSegment) : SceneNode :=
  .path n.id ((get_transform n.attrs .Transform).getD Transform.identity) d
    (convert_fill defs n.attrs) (convert_stroke defs n.attrs)

/-- Result of resolving the clip-path attribute of a group (convert/mod.rs,
convert_nodes, EId::G arm): either keep the group with an optional defs index,
or drop the group and its whole subtree. -/
inductive ClipResolution where
  | drop
  | keep (cp : Option Nat)
deriving DecidableEq, Repr

/-- The clip-path resolution logic of the EId::G arm of convert_nodes: with no
clip-path attribute the group is kept without a clip; otherwise the value must
be a function link to a clipPath-tagged element whose identifier is found in
the definitions list, else the group is dropped. -/
def resolve_group_clip (defs : List DefsNode) (attrs : List (AId × AValue)) : ClipResolution :=
  match get_type attrs .ClipPath with
  | Option.none => .keep Option.none
  | some av =>
    let v : Option Nat :=
      match av with
      | .funcLink tag id => if tag = EId.ClipPath then defs_index defs id else Option.none
      | _ => Option.none
    match v with
    | some idx => .keep (some idx)
    | Option.none => .drop

end Resvg

namespace Resvg

/-- convert::convert_nodes (convert/mod.rs): the content pass. A node flagged
as referenced is always skipped. Structural tags are skipped silently. A group
resolves its clip-path attribute; if the attribute is present but does not
resolve, the whole group and its subtree are dropped, otherwise the group is
emitted and its children are converted one level deeper. Basic shapes go
through the external shape flattening; paths need path data; text and image
nodes are delegated to their converters; everything else is a diagnostic with
no node emitted. -/
def convert_nodes (cb : Collab) (defs : List DefsNode) : GForest → SceneForest
  | .nil => .nil
  | .cons (.mk tag id ref attrs txt children) rest =>
    if ref then convert_nodes cb defs rest
    else
      match tag with
      | .Title | .Desc | .Metadata | .Defs =>
        convert_nodes cb defs rest
      | .G =>
        match resolve_group_clip defs attrs with
        | .drop => convert_nodes cb defs rest
        | .keep cp =>
          .cons
            (.group id ((get_transform attrs .Transform).getD Transform.identity)
              (get_number attrs .Opacity) cp (convert_nodes cb defs children))
            (convert_nodes cb defs rest)
      | .Line | .Rect | .Polyline | .Polygon | .Circle | .Ellipse =>
        match cb.shapes (.mk tag id ref attrs txt children) with
        | some d =>
          .cons (convert_path defs (.mk tag id ref attrs txt children) d)
            (convert_nodes cb defs rest)
        | none => convert_nodes cb defs rest
      | .Use | .Switch =>
        convert_nodes cb defs rest
      | .Svg =>
        convert_nodes cb defs rest
      | .Path =>
        match get_path attrs .D with
        | some d =>
          .cons (convert_path defs (.mk tag id ref attrs txt children) d)
            (convert_nodes cb defs rest)
        | none => convert_nodes cb defs rest
      | .Text =>
        .cons (convert_text defs (.mk tag id ref attrs txt children))
          (convert_nodes cb defs rest)
      | .Image =>
        match convert_image (.mk tag id ref attrs txt children) with
        | some img => .cons img (convert_nodes cb defs rest)
        | none => convert_nodes cb defs rest
      | _ =>
        convert_nodes cb defs rest

/-- Modelled from the spec: convert/clippath.rs is not under src/. Per the
definitions pass, a referenced clipPath element is converted into a ClipPath
entry; per the no-recursive-defs invariant, references inside a definitions
entry are rejected rather than resolved, which is modelled by converting the
content subtree against an empty definitions list. -/
def convert_clippath (cb : Collab) (n : GNode) : DefsNode :=
  .clipPath n.id (convert_element_units n.attrs .ClipPathUnits)
    ((get_transform n.attrs .Transform).getD Transform.identity)
    (convert_nodes cb [] n.children)

/-- Modelled from the spec: convert/pattern.rs is not under src/. Per the
definitions pass, a referenced pattern element is converted into a Pattern
entry holding its rectangle, optional view box, units, content units and
transform; references inside it are rejected as for clip paths. -/
def convert_pattern (cb : Collab) (n : GNode) : DefsNode :=
  .pattern n.id
    { x := (get_number n.attrs .X).getD 0
      y := (get_number n.attrs .Y).getD 0
      w := (get_number n.attrs .Width).getD 0
      h := (get_number n.attrs .Height).getD 0 }
    (get_viewbox_attr n.attrs)
    (convert_element_units n.attrs .PatternUnits)
    (convert_element_units n.attrs .PatternContentUnits)
    ((get_transform n.attrs .PatternTransform).getD Transform.identity)
    (convert_nodes cb [] n.children)

/-- The dispatch loop of convert::convert_ref_nodes over the children of the
defs element: children not flagged as referenced are skipped; referenced
gradients, clip paths and patterns are appended in encounter order; any other
tag is skipped with a diagnostic. -/
def convert_ref_list (cb : Collab) : List GNode → List DefsNode
  | [] => []
  | n :: rest =>
    if ! n.referenced then convert_ref_list cb rest
    else
      match n.tag with
      | .LinearGradient => convert_linear n :: convert_ref_list cb rest
      | .RadialGradient => convert_radial n :: convert_ref_list cb rest
      | .ClipPath => convert_clippath cb n :: convert_ref_list cb rest
      | .Pattern => convert_pattern cb n :: convert_ref_list cb rest
      | _ => convert_ref_list cb rest

/-- svgdom Document::svg_element, modelled at the interface: the first
top-level element with the svg tag. -/
def svg_element (svg_doc : GForest) : Option GNode :=
  svg_doc.find? (fun n => n.tag == EId.Svg)

/-- svgdom Document::defs_element, modelled at the interface: the first defs
element under the svg element. -/
def defs_element (svg_doc : GForest) : Option GNode :=
  (svg_element svg_doc).bind (fun svg => svg.children.find? (fun n => n.tag == EId.Defs))

/-- convert::convert_ref_nodes (convert/mod.rs): the definitions pass. With no
defs element nothing is appended; otherwise the children of the defs element
are dispatched in encounter order. -/
def convert_ref_nodes (cb : Collab) (svg_doc : GForest) : List DefsNode :=
  match defs_element svg_doc with
  | none => []
  | some defs => convert_ref_list cb defs.children.toList

/-- Floor of a rational as an integer (the denominator is positive, so
flooring division of the numerator by the denominator). -/
def ratFloor (x : Rat) : Int := x.num.fdiv x.den

/-- f64::round of Rust: round half away from zero. -/
def f64_round (x : Rat) : Rat :=
  if x < 0 then (-(ratFloor (-x + 1/2)) : Int) else ((ratFloor (x + 1/2) : Int) : Rat)

/-- convert::get_img_size (convert/mod.rs): both width and height must be
present as numbers, else the conversion fails with InvalidSize; the size is
rounded to integers. -/
def get_img_size (svg : GNode) : Except Error Size :=
  match get_number svg.attrs .Width, get_number svg.attrs .Height with
  | some w, some h => .ok ⟨f64_round w, f64_round h⟩
  | _, _ => .error .InvalidSize

/-- convert::get_view_box (convert/mod.rs): reads the view box (the GetViewBox
trait is not under src/; per the spec an absent or invalid view box is the
third fatal error) and rounds its coordinates. -/
def get_view_box (svg : GNode) : Except Error Rect :=
  match get_viewbox_attr svg.attrs with
  | some vb => .ok ⟨f64_round vb.x, f64_round vb.y, f64_round vb.w, f64_round vb.h⟩
  | none => .error .InvalidViewBox

/-- convert::convert_doc (convert/mod.rs): the forward resolver. Fails with
MissingSvgNode when the document has no svg element, then reads size and view
box (the only other fatal conditions), then runs the definitions pass and the
content pass. -/
def convert_doc (cb : Collab) (svg_doc : GForest) (opt : Options) : Except Error Document :=
  match svg_element svg_doc with
  | none => .error .MissingSvgNode
  | some svg => do
    let size ← get_img_size svg
    let vb ← get_view_box svg
    let defs := convert_ref_nodes cb svg_doc
    let content := convert_nodes cb defs svg.children
    .ok { svg := { size := size, view_box := vb, dpi := opt.dpi }
          defs := defs
          content := content }

end Resvg

namespace Resvg

/-! ## Inverse serializer (dom/dump.rs) -/

/-- Conversion of a list of nodes back to a forest. -/
def listToGForest : List GNode → GForest
  | [] => .nil
  | n :: rest => .cons n (listToGForest rest)

/-- The standard base64 alphabet (base64 crate, CharacterSet::Standard). -/
def b64alphabet : List Char :=
  [ 'A','B','C','D','E','F','G','H','I','J','K','L','M','N','O','P','Q','R','S','T','U','V','W','X','Y','Z',
    'a','b','c','d','e','f','g','h','i','j','k','l','m','n','o','p','q','r','s','t','u','v','w','x','y','z',
    '0','1','2','3','4','5','6','7','8','9','+','/' ]

/-- A base64 digit. -/
def b64char (i : Nat) : Char := b64alphabet.getD i 'A'

/-- Base64 encoding with padding of a byte list, three bytes at a time. -/
def b64groups : List Nat → List Char
  | [] => []
  | [a] => [b64char (a / 4), b64char (a % 4 * 16), '=', '=']
  | [a, b] => [b64char (a / 4), b64char (a % 4 * 16 + b / 16), b64char (b % 16 * 4), '=']
  | a :: b :: c :: rest =>
    b64char (a / 4) :: b64char (a % 4 * 16 + b / 16) ::
    b64char (b % 16 * 4 + c / 64) :: b64char (c % 64) :: b64groups rest

/-- Line wrapping of the base64 output at 64 characters with a line feed
(base64 crate, LineWrap::Wrap(64, LineEnding::LF)). -/
def b64wrap : List Char → Nat → List Char
  | [], _ => []
  | ch :: rest, k =>
    if k == 63 && !rest.isEmpty then ch :: '\n' :: b64wrap rest 0
    else ch :: b64wrap rest (k + 1)

/-- base64::encode_config with the configuration built in conv_elements. -/
def base64_encode (data : List Nat) : String := String.mk (b64wrap (b64groups data) 0)

/-- The crate version written into the resvg:version attribute (the value of
the CARGO_PKG_VERSION build constant, not part of src/). -/
def CARGO_PKG_VERSION : String := "0.1.0"

/-- The xlink:href value written for an image: a plain path reference for a
file-backed image, a base64 data URI for raw embedded bytes. -/
def conv_image_href : ImageData → String
  | .path p => p
  | .raw data kind =>
    "data:image/" ++ (match kind with | .PNG => "png" | .JPEG => "jpg") ++
    ";base64,\n" ++ base64_encode data

/-- dump::conv_units: the units attribute is always written. -/
def conv_units (aid : AId) (units : Units) : AId × AValue :=
  (aid, .predef (match units with
    | .UserSpaceOnUse => .UserSpaceOnUse
    | .ObjectBoundingBox => .ObjectBoundingBox))

/-- dump::conv_transform: a transform attribute is written only when the
transform is not the identity. -/
def conv_transform (aid : AId) (ts : Transform) : List (AId × AValue) :=
  if !ts.is_default then [(aid, .transform ts)] else []

/-- dump::conv_fill: a missing fill is written as the explicit keyword none; a
paint link is serialized by positional lookup of the index-th child of the defs
container built so far (a failed lookup models the unwrap panic); fill-opacity
is written only when it fuzzily differs from 1; a non-default fill rule is
written as clip-rule inside a clipPath parent and as fill-rule elsewhere. -/
def conv_fill (fill : Option Fill) (defsChildren : List GNode) (parentTag : EId) :
    Option (List (AId × AValue)) :=
  match fill with
  | some f => do
    let paintAttr : AId × AValue ←
      match f.paint with
      | .color c => some (AId.Fill, AValue.color c)
      | .link id => (defsChildren.get? id).map (fun l => (AId.Fill, AValue.funcLink l.tag l.id))
    let l := [paintAttr]
    let l := if fuzzy_ne f.opacity 1 then l ++ [(AId.FillOpacity, AValue.number f.opacity)] else l
    let l :=
      if f.rule ≠ FillRule.NonZero then
        if parentTag = EId.ClipPath then l ++ [(AId.ClipRule, AValue.predef .Evenodd)]
        else l ++ [(AId.FillRule, AValue.predef .Evenodd)]
      else l
    some l
  | none => some [(AId.Fill, AValue.predef .None)]

/-- dump::conv_stroke: a missing stroke is written as the explicit keyword
none; the numeric attributes are written only when they fuzzily differ from
their defaults, cap and join only when they differ from butt and miter, and
the dash array whenever it is present. -/
def conv_stroke (stroke : Option Stroke) (defsChildren : List GNode) :
    Option (List (AId × AValue)) :=
  match stroke with
  | some st => do
    let paintAttr : AId × AValue ←
      match st.paint with
      | .color c => some (AId.Stroke, AValue.color c)
      | .link id => (defsChildren.get? id).map (fun l => (AId.Stroke, AValue.funcLink l.tag l.id))
    let l := [paintAttr]
    let l := if fuzzy_ne st.opacity 1 then l ++ [(AId.StrokeOpacity, AValue.number st.opacity)] else l
    let l := if fuzzy_ne st.dashoffset 0 then l ++ [(AId.StrokeDashoffset, AValue.number st.dashoffset)] else l
    let l := if fuzzy_ne st.miterlimit 4 then l ++ [(AId.StrokeMiterlimit, AValue.number st.miterlimit)] else l
    let l := if fuzzy_ne st.width 1 then l ++ [(AId.StrokeWidth, AValue.number st.width)] else l
    let l :=
      if st.linecap ≠ LineCap.Butt then
        l ++ [(AId.StrokeLinecap, AValue.predef (match st.linecap with
          | .Butt => .Butt | .Round => .Round | .Square => .Square))]
      else l
    let l :=
      if st.linejoin ≠ LineJoin.Miter then
        l ++ [(AId.StrokeLinejoin, AValue.predef (match st.linejoin with
          | .Miter => .Miter | .Round => .Round | .Bevel => .Bevel))]
      else l
    let l :=
      match st.dasharray with
      | some arr => l ++ [(AId.StrokeDasharray, AValue.numberList arr)]
      | none => l
    some l
  | none => some [(AId.Stroke, AValue.predef .None)]

/-- dump::conv_font: family and size are always written; style, variant,
weight and stretch only when they differ from Normal. -/
def conv_font (font : Font) : List (AId × AValue) :=
  let l := [(AId.FontFamily, AValue.str font.family), (AId.FontSize, AValue.number font.size)]
  let l :=
    if font.style ≠ FontStyle.Normal then
      l ++ [(AId.FontStyle, AValue.predef (match font.style with
        | .Normal => .Normal | .Italic => .Italic | .Oblique => .Oblique))]
    else l
  let l :=
    if font.variant ≠ FontVariant.Normal then
      l ++ [(AId.FontVariant, AValue.predef (match font.variant with
        | .Normal => .Normal | .SmallCaps => .SmallCaps))]
    else l
  let l :=
    if font.weight ≠ FontWeight.Normal then
      l ++ [(AId.FontWeight, AValue.predef (match font.weight with
        | .Normal => .Normal | .Bold => .Bold | .Bolder => .Bolder | .Lighter => .Lighter
        | .W100 => .N100 | .W200 => .N200 | .W300 => .N300 | .W400 => .N400 | .W500 => .N500
        | .W600 => .N600 | .W700 => .N700 | .W800 => .N800 | .W900 => .N900))]
    else l
  let l :=
    if font.stretch ≠ FontStretch.Normal then
      l ++ [(AId.FontStretch, AValue.predef (match font.stretch with
        | .Normal => .Normal | .Wider => .Wider | .Narrower => .Narrower
        | .UltraCondensed => .UltraCondensed | .ExtraCondensed => .ExtraCondensed
        | .Condensed => .Condensed | .SemiCondensed => .SemiCondensed
        | .SemiExpanded => .SemiExpanded | .Expanded => .Expanded
        | .ExtraExpanded => .ExtraExpanded | .UltraExpanded => .UltraExpanded))]
    else l
  l

/-- A serialized text span: a tspan element holding the character data and the
fill, stroke and font attributes of the span. -/
def conv_text_span (defsChildren : List GNode) (parentTag : EId) (sp : TSpan) : Option GNode := do
  let fillAttrs ← conv_fill sp.fill defsChildren parentTag
  let strokeAttrs ← conv_stroke sp.stroke defsChildren
  some (.mk .Tspan "" false (fillAttrs ++ strokeAttrs ++ conv_font sp.font) sp.text .nil)

/-- The spans of one chunk, serialized in order. -/
def conv_text_spans (defsChildren : List GNode) (parentTag : EId) : List TSpan → Option GForest
  | [] => some .nil
  | sp :: rest => do
    let g ← conv_text_span defsChildren parentTag sp
    let f ← conv_text_spans defsChildren parentTag rest
    some (.cons g f)

/-- A serialized text chunk: a tspan element carrying position, the anchor when
it is not Start, and the span children. -/
def conv_text_chunk (defsChildren : List GNode) (parentTag : EId) (ch : TextChunk) : Option GNode := do
  let anchorAttrs : List (AId × AValue) :=
    if ch.anchor ≠ TextAnchor.Start then
      [(AId.TextAnchor, AValue.predef (match ch.anchor with
        | .Start => .Start | .Middle => .Middle | .End => .End))]
    else []
  let spans ← conv_text_spans defsChildren parentTag ch.spans
  some (.mk .Tspan "" false ([(AId.X, AValue.number ch.x), (AId.Y, AValue.number ch.y)] ++ anchorAttrs) "" spans)

/-- The chunks of a text element, serialized in order. -/
def conv_text_chunks (defsChildren : List GNode) (parentTag : EId) : List TextChunk → Option GForest
  | [] => some .nil
  | ch :: rest => do
    let g ← conv_text_chunk defsChildren parentTag ch
    let f ← conv_text_chunks defsChildren parentTag rest
    some (.cons g f)

mutual

/-- dump::conv_elements, per node: content nodes are serialized back to their
generic tags; a group clip link and every paint link go through the positional
lookup of the index-th defs child; group opacity is written only when present
and fuzzily different from 1. -/
def conv_element_node (defsChildren : List GNode) (parentTag : EId) : SceneNode → Option GNode
  | .path id ts d fill stroke => do
    let fillAttrs ← conv_fill fill defsChildren parentTag
    let strokeAttrs ← conv_stroke stroke defsChildren
    some (.mk .Path id false
      (conv_transform .Transform ts ++ [(AId.D, AValue.pathData d)] ++ fillAttrs ++ strokeAttrs)
      "" .nil)
  | .text id ts chunks => do
    let f ← conv_text_chunks defsChildren parentTag chunks
    some (.mk .Text id false (conv_transform .Transform ts) "" f)
  | .image id ts img =>
    some (.mk .Image id false
      (conv_transform .Transform ts ++
        [(AId.X, AValue.number img.rect.x), (AId.Y, AValue.number img.rect.y),
         (AId.Width, AValue.number img.rect.w), (AId.Height, AValue.number img.rect.h),
         (AId.XlinkHref, AValue.str (conv_image_href img.data))])
      "" .nil)
  | .group id ts opacity cp children => do
    let clipAttrsOpt : Option (List (AId × AValue)) :=
      match cp with
      | some idx =>
        (defsChildren.get? idx).map (fun l => [(AId.ClipPath, AValue.funcLink l.tag l.id)])
      | none => some []
    let clipAttrs ← clipAttrsOpt
    let opacityAttrs : List (AId × AValue) :=
      match opacity with
      | some o => if fuzzy_ne o 1 then [(AId.Opacity, AValue.number o)] else []
      | none => []
    let f ← conv_elements defsChildren .G children
    some (.mk .G id false (conv_transform .Transform ts ++ clipAttrs ++ opacityAttrs) "" f)

/-- dump::conv_elements over a forest of content nodes. -/
def conv_elements (defsChildren : List GNode) (parentTag : EId) : SceneForest → Option GForest
  | .nil => some .nil
  | .cons n rest => do
    let g ← conv_element_node defsChildren parentTag n
    let f ← conv_elements defsChildren parentTag rest
    some (.cons g f)

end

/-- The stop children a gradient element re-emits (dump::conv_base_grad): every
stop attribute is written unconditionally. -/
def conv_stop_children : List Stop → GForest
  | [] => .nil
  | s :: rest =>
    .cons (.mk .Stop "" false
      [(AId.Offset, AValue.number s.offset), (AId.StopColor, AValue.color s.color),
       (AId.StopOpacity, AValue.number s.opacity)] "" .nil)
      (conv_stop_children rest)

/-- The attributes dump::conv_base_grad writes on a gradient element: units and
spread method unconditionally, the gradient transform only when it is not the
identity. -/
def conv_base_grad_attrs (g : BaseGradient) : List (AId × AValue) :=
  [conv_units .GradientUnits g.units,
   (AId.SpreadMethod, AValue.predef (match g.spread_method with
     | .Pad => .Pad | .Reflect => .Reflect | .Repeat => .Repeat))] ++
  conv_transform .GradientTransform g.transform

/-- One iteration of dump::conv_defs: a definitions entry serialized against
the defs children emitted before it (the entry itself is appended to the defs
container before its content subtree is serialized, so the subtree sees the
previous children plus this entry). -/
def conv_defs_entry (defsAcc : List GNode) : DefsNode → Option GNode
  | .linearGradient lg =>
    some (.mk .LinearGradient lg.id false
      ([(AId.X1, AValue.number lg.x1), (AId.Y1, AValue.number lg.y1),
        (AId.X2, AValue.number lg.x2), (AId.Y2, AValue.number lg.y2)] ++
       conv_base_grad_attrs lg.d)
      "" (conv_stop_children lg.stops))
  | .radialGradient rg =>
    some (.mk .RadialGradient rg.id false
      ([(AId.Cx, AValue.number rg.cx), (AId.Cy, AValue.number rg.cy),
        (AId.R, AValue.number rg.r), (AId.Fx, AValue.number rg.fx),
        (AId.Fy, AValue.number rg.fy)] ++
       conv_base_grad_attrs rg.d)
      "" (conv_stop_children rg.stops))
  | .clipPath id units ts children => do
    let attrs := [conv_units .ClipPathUnits units] ++ conv_transform .Transform ts
    let f ← conv_elements (defsAcc ++ [.mk .ClipPath id false attrs "" .nil]) .ClipPath children
    some (.mk .ClipPath id false attrs "" f)
  | .pattern id rect view_box units content_units ts children => do
    let vbAttrs : List (AId × AValue) :=
      match view_box with
      | some vb => [(AId.ViewBox, AValue.viewBox vb)]
      | none => []
    let attrs :=
      [(AId.X, AValue.number rect.x), (AId.Y, AValue.number rect.y),
       (AId.Width, AValue.number rect.w), (AId.Height, AValue.number rect.h)] ++
      vbAttrs ++
      [conv_units .PatternUnits units, conv_units .PatternContentUnits content_units] ++
      conv_transform .PatternTransform ts
    let f ← conv_elements (defsAcc ++ [.mk .Pattern id false attrs "" .nil]) .Pattern children
    some (.mk .Pattern id false attrs "" f)

/-- dump::conv_defs: the definitions list is serialized in original order, each
entry becoming one child of the defs container. -/
def conv_defs_list (defsAcc : List GNode) : List DefsNode → Option (List GNode)
  | [] => some []
  | e :: rest => do
    let g ← conv_defs_entry defsAcc e
    let js ← conv_defs_list (defsAcc ++ [g]) rest
    some (g :: js)

/-- The attributes dump::conv_doc sets on the emitted svg root: namespace and
version metadata, size and view box. -/
def svgRootAttrs (sv : Svg) : List (AId × AValue) :=
  [(AId.Xmlns, AValue.str "http://www.w3.org/2000/svg"),
   (AId.Width, AValue.number sv.size.w),
   (AId.Height, AValue.number sv.size.h),
   (AId.ViewBox, AValue.viewBox sv.view_box),
   (AId.XmlnsXlink, AValue.str "http://www.w3.org/1999/xlink"),
   (AId.XmlnsResvg, AValue.str "https://github.com/RazrFalcon/libresvg"),
   (AId.ResvgVersion, AValue.str CARGO_PKG_VERSION)]

/-- dump::conv_doc: the inverse serializer. Emits the svg root with size, view
box and the fixed namespace and version attributes, then the defs container
with the serialized definitions list, then the serialized content tree. -/
def conv_doc (doc : Document) : Option GNode := do
  let defsChildren ← conv_defs_list [] doc.defs
  let defsNode : GNode := .mk .Defs "" false [] "" (listToGForest defsChildren)
  let contentF ← conv_elements defsChildren .Svg doc.content
  some (.mk .Svg "" false (svgRootAttrs doc.svg) "" (.cons defsNode contentF))

end Resvg

namespace Resvg

/-! ## Qt rendering backend models (render_qt/fill.rs, render_qt/image.rs) -/

/-- math::f64_bound: clamp a value between a minimum and a maximum. -/
def f64_bound (minv v maxv : Rat) : Rat := max minv (min v maxv)

/-- Truncation toward zero, the behavior of a Rust float-to-integer cast. -/
def f64_trunc (x : Rat) : Int := if x < 0 then -((-x).floor) else x.floor

/-- A Qt brush state. A brush prepared from a gradient or pattern defs entry is
modelled abstractly by the entry and the fill opacity handed to the out-of-scope
preparation routine; a freshly constructed brush is the default brush. -/
inductive Brush where
  | defaultBrush
  | colorBrush (c : Color) (alpha : Nat)
  | linearGradientBrush (lg : LinearGradient) (opacity : Rat)
  | radialGradientBrush (rg : RadialGradient) (opacity : Rat)
  | patternBrush (id : String) (opacity : Rat)
deriving DecidableEq, Repr

/-- The painter interaction of fill::apply: either a brush is set or the brush
is reset. -/
inductive BrushCmd where
  | setBrush (b : Brush)
  | resetBrush
deriving DecidableEq, Repr

/-- render_qt::fill::apply: a present fill sets a brush built from its paint (a
color with the opacity folded into the alpha channel, or the defs entry the
paint links to); a missing fill resets the brush. A clip-path defs entry leaves
the new brush untouched, so the default brush is set. An out-of-range defs
index panics in the source (Document::defs_at); it is modelled by the default
brush and is unreachable for resolver-produced documents. -/
def fill_apply (doc : Document) (fill : Option Fill) : BrushCmd :=
  match fill with
  | some f =>
    .setBrush (match f.paint with
      | .color c => .colorBrush c (f64_trunc (f64_bound 0 (f.opacity * 255) 255)).toNat
      | .link id =>
        match doc.defs.get? id with
        | some (.linearGradient lg) => .linearGradientBrush lg f.opacity
        | some (.radialGradient rg) => .radialGradientBrush rg f.opacity
        | some (.clipPath _ _ _ _) => .defaultBrush
        | some (.pattern i _ _ _ _ _ _) => .patternBrush i f.opacity
        | none => .defaultBrush)
  | none => .resetBrush

/-- The qt image collaborators, modelled at their interface boundary: loading
from a file or from raw bytes and resizing may each fail; an image value is an
abstract handle. -/
structure QtEnv where
  from_file : String → Option Nat
  from_data : List Nat → Option Nat
  resizeTo : Nat → Int → Int → Option Nat

/-- The painter interaction of image::draw. -/
inductive DrawCmd where
  | drawImage (x y : Rat) (img : Nat)
deriving DecidableEq, Repr

/-- render_qt::image::draw: load the file-backed or embedded image, resize it
to the declared rectangle, draw it at the declared position; every failure
path returns the declared rectangle with no pixels drawn, and success also
returns the declared rectangle. -/
def image_draw (env : QtEnv) (image : Image) : List DrawCmd × Rect :=
  let loaded : Option Nat :=
    match image.data with
    | .path p => env.from_file p
    | .raw data _ => env.from_data data
  match loaded with
  | none => ([], image.rect)
  | some img =>
    match env.resizeTo img (f64_trunc image.rect.w) (f64_trunc image.rect.h) with
    | none => ([], image.rect)
    | some v => ([.drawImage image.rect.x image.rect.y v], image.rect)

/-! ## Recomputing the "is referenced" flags

The upstream preprocessor marks a node as referenced when some other node in
the document links to its identifier. For round trips the flags of a
serialized tree are recomputed from the function links present in the tree,
matching how svgdom derives them from linked attributes. -/

/-- The identifiers targeted by function-link attribute values. -/
def attrLinkIds (attrs : List (AId × AValue)) : List String :=
  attrs.filterMap (fun p => match p.2 with | .funcLink _ i => some i | _ => none)

mutual

/-- All function-link targets inside a node. -/
def GNode.linkIds : GNode → List String
  | .mk _ _ _ attrs _ children => attrLinkIds attrs ++ GForest.linkIds children

/-- All function-link targets inside a forest. -/
def GForest.linkIds : GForest → List String
  | .nil => []
  | .cons n rest => GNode.linkIds n ++ GForest.linkIds rest

end

mutual

/-- Set every referenced flag from the given set of targeted identifiers. -/
def GNode.markWith (ids : List String) : GNode → GNode
  | .mk tag id _ attrs txt children => .mk tag id (ids.contains id) attrs txt (GForest.markWith ids children)

/-- Set every referenced flag in a forest. -/
def GForest.markWith (ids : List String) : GForest → GForest
  | .nil => .nil
  | .cons n rest => .cons (GNode.markWith ids n) (GForest.markWith ids rest)

end

/-- Recompute the referenced flags of a serialized tree from its own links. -/
def markReferenced (root : GNode) : GNode :=
  GNode.markWith (GNode.linkIds root) root

/-- Serialize a document and re-resolve the serialized tree after recomputing
the referenced flags: the round trip of the testable properties section. -/
def roundTrip (cb : Collab) (opt : Options) (doc : Document) : Option Document :=
  match conv_doc doc with
  | none => none
  | some tree =>
    match convert_doc cb (.cons (markReferenced tree) .nil) opt with
    | .ok d => some d
    | .error _ => none

end Resvg

namespace Resvg

/-! ## Basic lemmas -/

/-- A resolved defs index is a position inside the definitions list. -/
theorem defs_index_lt_length {defs : List DefsNode} {id : String} {i : Nat}
    (h : defs_index defs id = some i) : i < defs.length := by
  unfold defs_index at h
  exact (List.findIdx?_eq_some_iff_getElem.mp h).1

/-! ## Claim theorems, part one -/

/-- C8: during the content pass, every node whose referenced flag is true is
skipped and contributes no node to the content tree, regardless of its tag. -/
theorem referenced_node_skipped (cb : Collab) (defs : List DefsNode)
    (tag : EId) (id : String) (a : List (AId × AValue)) (txt : String)
    (children rest : GForest) :
    convert_nodes cb defs (.cons (.mk tag id true a txt children) rest) =
      convert_nodes cb defs rest := by
  simp [convert_nodes]

/-- C1: a group whose clip-path attribute is present but does not resolve to a
clipPath-tagged link with an identifier found in the definitions list (broken
link, wrong target type, or target absent) contributes no Group node and no
descendant nodes: the whole subtree is dropped from the content tree. -/
theorem broken_clip_group_dropped (cb : Collab) (defs : List DefsNode)
    (id : String) (a : List (AId × AValue)) (txt : String)
    (children rest : GForest) (av : AValue)
    (hpresent : get_type a .ClipPath = some av)
    (hbroken : ∀ tag lid, av = .funcLink tag lid →
      tag ≠ EId.ClipPath ∨ defs_index defs lid = none) :
    convert_nodes cb defs (.cons (.mk .G id false a txt children) rest) =
      convert_nodes cb defs rest := by
  have hdrop : resolve_group_clip defs a = .drop := by
    unfold resolve_group_clip
    rw [hpresent]
    cases av
    case funcLink tag lid =>
      rcases hbroken tag lid rfl with h | h
      · simp [h]
      · rcases eq_or_ne tag EId.ClipPath with h2 | h2
        · simp [h2, h]
        · simp [h2]
    all_goals rfl
  simp [convert_nodes, hdrop]

/-- C1 witness: a group with one path child referencing a missing clip path,
converted against an empty definitions list, is dropped whole. -/
theorem broken_clip_group_dropped_witness :
    convert_nodes ⟨fun _ => none⟩ []
      (.cons
        (.mk .G "g1" false [(AId.ClipPath, .funcLink .ClipPath "missing")] ""
          (.cons (.mk .Path "p1" false [(AId.D, .pathData [.closePath])] "" .nil) .nil))
        .nil) = .nil :=
  (broken_clip_group_dropped ⟨fun _ => none⟩ [] "g1"
    [(AId.ClipPath, .funcLink .ClipPath "missing")] ""
    (.cons (.mk .Path "p1" false [(AId.D, .pathData [.closePath])] "" .nil) .nil) .nil
    (.funcLink .ClipPath "missing") rfl
    (fun _ _ _ => Or.inr rfl)).trans rfl

/-- C5: a referenced linearGradient element carrying only an identifier and no
attributes resolves to a LinearGradient defs entry with x1 = 0, y1 = 0,
x2 = 1, y2 = 0, user-space-on-use units, spread method Pad and the identity
transform. -/
theorem linear_gradient_defaults (cb : Collab) (gid : String) (txt : String)
    (children : GForest) (rest : List GNode) :
    convert_ref_list cb (GNode.mk .LinearGradient gid true [] txt children :: rest) =
      DefsNode.linearGradient
        { id := gid, x1 := 0, y1 := 0, x2 := 1, y2 := 0
          d := { units := .UserSpaceOnUse, transform := Transform.identity
                 spread_method := .Pad }
          stops := convert_stops children } :: convert_ref_list cb rest := by
  simp [convert_ref_list, convert_linear, GNode.referenced, GNode.tag, GNode.attrs,
    GNode.id, GNode.children, get_number, get_transform, get_type,
    convert_element_units, get_predef, convert_spread_method]

/-- C6: a stop child with no attributes resolves to offset 0, black and
opacity 1; a gradient child that is not a stop element is skipped and yields
no Stop. -/
theorem stop_conversion_spec :
    (∀ (sid : String) (ref : Bool) (txt : String) (ch rest : GForest),
      convert_stops (.cons (.mk .Stop sid ref [] txt ch) rest) =
        { offset := 0, color := ⟨0, 0, 0⟩, opacity := 1 } :: convert_stops rest) ∧
    (∀ (n : GNode) (rest : GForest), n.tag ≠ EId.Stop →
      convert_stops (.cons n rest) = convert_stops rest) := by
  constructor
  · intro sid ref txt ch rest
    simp [convert_stops, GNode.tag, GNode.attrs, get_number, get_color, get_type]
  · intro n rest h
    simp [convert_stops, h]

/-- C6 witness: one attribute-free stop followed by a non-stop child yields
exactly the default Stop. -/
theorem stop_conversion_spec_witness :
    convert_stops (.cons (.mk .Stop "s" false [] "" .nil)
      (.cons (.mk .Title "t" false [] "" .nil) .nil)) =
      [{ offset := 0, color := ⟨0, 0, 0⟩, opacity := 1 }] := by
  rw [stop_conversion_spec.1]
  rw [stop_conversion_spec.2 _ _ (by decide)]
  rfl

/-- C7: a missing fill or stroke is a materialized no-paint state: the
serializer always writes the explicit keyword none for it, and the Qt fill
application resets the brush instead of painting a default color. -/
theorem none_paint_materialized :
    (∀ (defsChildren : List GNode) (parentTag : EId),
        conv_fill none defsChildren parentTag = some [(AId.Fill, AValue.predef .None)]) ∧
    (∀ (defsChildren : List GNode),
        conv_stroke none defsChildren = some [(AId.Stroke, AValue.predef .None)]) ∧
    (∀ (doc : Document), fill_apply doc none = .resetBrush) :=
  ⟨fun _ _ => rfl, fun _ => rfl, fun _ => rfl⟩

/-- C9: the image draw operation returns the declared rectangle of the image
in every case: failed load of a file-backed or embedded image, failed resize,
and successful draw; no failure aborts the surrounding rendering. -/
theorem image_draw_rect (env : QtEnv) (image : Image) :
    (image_draw env image).2 = image.rect := by
  rcases image with ⟨rect, data⟩
  cases data with
  | path p =>
    cases hf : env.from_file p with
    | none => simp [image_draw, hf]
    | some img =>
      cases hr : env.resizeTo img (f64_trunc rect.w) (f64_trunc rect.h) with
      | none => simp [image_draw, hf, hr]
      | some v => simp [image_draw, hf, hr]
  | raw d k =>
    cases hf : env.from_data d with
    | none => simp [image_draw, hf]
    | some img =>
      cases hr : env.resizeTo img (f64_trunc rect.w) (f64_trunc rect.h) with
      | none => simp [image_draw, hf, hr]
      | some v => simp [image_draw, hf, hr]

/-- The error component of a conversion result. -/
def errOf (r : Except Error Document) : Option Error :=
  match r with
  | .error e => some e
  | .ok _ => none

/-- The fatal conditions of the forward resolver, read off the input tree: no
svg element, no numeric width and height, no view box. -/
def fatalReason (svg_doc : GForest) : Option Error :=
  match svg_element svg_doc with
  | none => some .MissingSvgNode
  | some svg =>
    match get_number svg.attrs .Width, get_number svg.attrs .Height with
    | some _, some _ =>
      match get_viewbox_attr svg.attrs with
      | some _ => none
      | none => some .InvalidViewBox
    | _, _ => some .InvalidSize

/-- C4: convert_doc fails exactly on the fatal conditions (missing svg
element, missing numeric size, missing view box) and returns a best-effort
document for every other input. -/
theorem convert_doc_error_characterization (cb : Collab) (svg_doc : GForest)
    (opt : Options) :
    errOf (convert_doc cb svg_doc opt) = fatalReason svg_doc := by
  unfold convert_doc fatalReason
  cases h : svg_element svg_doc with
  | none => rfl
  | some svg =>
    unfold get_img_size get_view_box
    cases hw : get_number svg.attrs .Width <;>
      cases hh : get_number svg.attrs .Height <;>
        cases hv : get_viewbox_attr svg.attrs <;>
          simp [errOf, hw, hh, hv, bind, Except.bind]

end Resvg

namespace Resvg

def paintLt (bound : Nat) : Paint → Bool
  | .color _ => true
  | .link idx => decide (idx < bound)

def fillLt (bound : Nat) : Option Fill → Bool
  | none => true
  | some f => paintLt bound f.paint

def strokeLt (bound : Nat) : Option Stroke → Bool
  | none => true
  | some st => paintLt bound st.paint

def spanLt (bound : Nat) (sp : TSpan) : Bool :=
  fillLt bound sp.fill && strokeLt bound sp.stroke

def chunkLt (bound : Nat) (ch : TextChunk) : Bool :=
  ch.spans.all (spanLt bound)

def cpLt (bound : Nat) : Option Nat → Bool
  | none => true
  | some idx => decide (idx < bound)

mutual

def SceneNode.linksLt (bound : Nat) : SceneNode → Bool
  | .group _ _ _ cp children => cpLt bound cp && SceneForest.linksLt bound children
  | .path _ _ _ fill stroke => fillLt bound fill && strokeLt bound stroke
  | .text _ _ chunks => chunks.all (chunkLt bound)
  | .image _ _ _ => true

def SceneForest.linksLt (bound : Nat) : SceneForest → Bool
  | .nil => true
  | .cons n rest => SceneNode.linksLt bound n && SceneForest.linksLt bound rest

end

theorem convert_fill_fillLt (defs : List DefsNode) (attrs : List (AId × AValue)) :
    fillLt defs.length (convert_fill defs attrs) = true := by
  unfold convert_fill
  cases hT : get_type attrs .Fill with
  | none => rfl
  | some av =>
    cases av <;> simp only []
    case color c => rfl
    case funcLink tag lid =>
      cases hI : defs_index defs lid with
      | none => rfl
      | some idx => simp [fillLt, paintLt, defs_index_lt_length hI]
    all_goals rfl

theorem convert_stroke_strokeLt (defs : List DefsNode) (attrs : List (AId × AValue)) :
    strokeLt defs.length (convert_stroke defs attrs) = true := by
  unfold convert_stroke
  cases hT : get_type attrs .Stroke with
  | none => rfl
  | some av =>
    cases av <;> simp only []
    case color c => rfl
    case funcLink tag lid =>
      cases hI : defs_index defs lid with
      | none => rfl
      | some idx => simp [strokeLt, paintLt, defs_index_lt_length hI]
    all_goals rfl

theorem convert_path_linksLt (defs : List DefsNode) (n : GNode) (d : List PathSegment) :
    SceneNode.linksLt defs.length (convert_path defs n d) = true := by
  simp [convert_path, SceneNode.linksLt, convert_fill_fillLt, convert_stroke_strokeLt]

theorem convert_text_linksLt (defs : List DefsNode) (n : GNode) :
    SceneNode.linksLt defs.length (convert_text defs n) = true := by
  simp only [convert_text, SceneNode.linksLt, List.all_eq_true]
  intro ch hch
  obtain ⟨c, _, rfl⟩ := List.mem_map.mp hch
  simp only [convert_text_chunk, chunkLt, List.all_eq_true]
  intro sp hsp
  obtain ⟨s, _, rfl⟩ := List.mem_map.mp hsp
  simp [convert_tspan, spanLt, convert_fill_fillLt, convert_stroke_strokeLt]

theorem convert_image_linksLt {bound : Nat} {n : GNode} {x : SceneNode}
    (h : convert_image n = some x) : SceneNode.linksLt bound x = true := by
  unfold convert_image at h
  cases hS : get_str n.attrs .XlinkHref with
  | none => rw [hS] at h; exact absurd h (by simp)
  | some href =>
    rw [hS] at h
    simp only [Option.some.injEq] at h
    subst h
    rfl

theorem cpLt_keep {defs : List DefsNode} {a : List (AId × AValue)} {cp : Option Nat}
    (h : resolve_group_clip defs a = ClipResolution.keep cp) : cpLt defs.length cp = true := by
  unfold resolve_group_clip at h
  cases hT : get_type a .ClipPath with
  | none =>
    rw [hT] at h
    simp only [ClipResolution.keep.injEq] at h
    subst h
    rfl
  | some av =>
    rw [hT] at h
    cases av <;> simp only [] at h
    case funcLink tag lid =>
      by_cases htag : tag = EId.ClipPath
      · rw [if_pos htag] at h
        cases hI : defs_index defs lid with
        | none => rw [hI] at h; exact absurd h (by simp)
        | some j =>
          rw [hI] at h
          simp only [ClipResolution.keep.injEq] at h
          subst h
          simp [cpLt, defs_index_lt_length hI]
      · rw [if_neg htag] at h; exact absurd h (by simp)
    all_goals exact absurd h (by simp)

theorem linksLt_group (b : Nat) (i : String) (t : Transform) (o : Option Rat)
    (cp : Option Nat) (ch : SceneForest) :
    SceneNode.linksLt b (.group i t o cp ch) = (cpLt b cp && SceneForest.linksLt b ch) := by
  simp [SceneNode.linksLt]

theorem convert_nodes_linksLt (cb : Collab) (defs : List DefsNode) (f : GForest) :
    SceneForest.linksLt defs.length (convert_nodes cb defs f) = true := by
  induction f using convert_nodes.induct cb defs <;>
    simp_all [convert_nodes, SceneForest.linksLt, linksLt_group,
      convert_path_linksLt, convert_text_linksLt] <;>
    first
      | exact cpLt_keep (by assumption)
      | exact convert_image_linksLt (by assumption)

end Resvg

namespace Resvg

/-- A position strictly inside a list can be read. -/
theorem getElem?_isSome_of_lt {α : Type} {l : List α} {n : Nat} (h : n < l.length) :
    l[n]?.isSome = true := by
  cases hg : l[n]? with
  | none => exact absurd (List.getElem?_eq_none_iff.mp hg) (Nat.not_le.mpr h)
  | some _ => rfl

theorem conv_fill_isSome {bound : Nat} {fill : Option Fill} {dc : List GNode} (pt : EId)
    (hle : bound ≤ dc.length) (h : fillLt bound fill = true) :
    (conv_fill fill dc pt).isSome = true := by
  cases fill with
  | none => rfl
  | some f =>
    cases hp : f.paint with
    | color c => simp [conv_fill, hp]
    | link idx =>
      have hlt : idx < dc.length := by
        have : idx < bound := by simpa [fillLt, paintLt, hp] using h
        exact lt_of_lt_of_le this hle
      obtain ⟨p, hp2⟩ := Option.isSome_iff_exists.mp (getElem?_isSome_of_lt hlt)
      simp [conv_fill, hp, hp2]

theorem conv_stroke_isSome {bound : Nat} {stroke : Option Stroke} {dc : List GNode}
    (hle : bound ≤ dc.length) (h : strokeLt bound stroke = true) :
    (conv_stroke stroke dc).isSome = true := by
  cases stroke with
  | none => rfl
  | some st =>
    cases hp : st.paint with
    | color c => simp [conv_stroke, hp]
    | link idx =>
      have hlt : idx < dc.length := by
        have : idx < bound := by simpa [strokeLt, paintLt, hp] using h
        exact lt_of_lt_of_le this hle
      obtain ⟨p, hp2⟩ := Option.isSome_iff_exists.mp (getElem?_isSome_of_lt hlt)
      simp [conv_stroke, hp, hp2]

theorem conv_text_span_isSome {bound : Nat} {dc : List GNode} {sp : TSpan} (pt : EId)
    (hle : bound ≤ dc.length) (h : spanLt bound sp = true) :
    (conv_text_span dc pt sp).isSome = true := by
  have hh := h
  simp only [spanLt, Bool.and_eq_true] at hh
  obtain ⟨hf, hs⟩ := hh
  obtain ⟨fa, hfa⟩ := Option.isSome_iff_exists.mp (conv_fill_isSome pt hle hf)
  obtain ⟨sa, hsa⟩ := Option.isSome_iff_exists.mp (conv_stroke_isSome hle hs)
  simp [conv_text_span, hfa, hsa]

theorem conv_text_spans_isSome {bound : Nat} {dc : List GNode} (pt : EId)
    (hle : bound ≤ dc.length) :
    ∀ (sps : List TSpan), sps.all (spanLt bound) = true →
      (conv_text_spans dc pt sps).isSome = true := by
  intro sps
  induction sps with
  | nil => intro _; rfl
  | cons sp rest ih =>
    intro h
    simp only [List.all_cons, Bool.and_eq_true] at h
    obtain ⟨g, hg⟩ := Option.isSome_iff_exists.mp (conv_text_span_isSome pt hle h.1)
    obtain ⟨f, hf⟩ := Option.isSome_iff_exists.mp (ih h.2)
    simp [conv_text_spans, hg, hf]

theorem conv_text_chunk_isSome {bound : Nat} {dc : List GNode} {ch : TextChunk} (pt : EId)
    (hle : bound ≤ dc.length) (h : chunkLt bound ch = true) :
    (conv_text_chunk dc pt ch).isSome = true := by
  obtain ⟨f, hf⟩ := Option.isSome_iff_exists.mp
    (conv_text_spans_isSome pt hle ch.spans (by simpa [chunkLt] using h))
  simp [conv_text_chunk, hf]

theorem conv_text_chunks_isSome {bound : Nat} {dc : List GNode} (pt : EId)
    (hle : bound ≤ dc.length) :
    ∀ (chs : List TextChunk), chs.all (chunkLt bound) = true →
      (conv_text_chunks dc pt chs).isSome = true := by
  intro chs
  induction chs with
  | nil => intro _; rfl
  | cons ch rest ih =>
    intro h
    simp only [List.all_cons, Bool.and_eq_true] at h
    obtain ⟨g, hg⟩ := Option.isSome_iff_exists.mp (conv_text_chunk_isSome pt hle h.1)
    obtain ⟨f, hf⟩ := Option.isSome_iff_exists.mp (ih h.2)
    simp [conv_text_chunks, hg, hf]

end Resvg

namespace Resvg

theorem linksLt_path (b : Nat) (i : String) (t : Transform) (d : List PathSegment)
    (fill : Option Fill) (stroke : Option Stroke) :
    SceneNode.linksLt b (.path i t d fill stroke) = (fillLt b fill && strokeLt b stroke) := by
  simp [SceneNode.linksLt]

theorem linksLt_text (b : Nat) (i : String) (t : Transform) (chunks : List TextChunk) :
    SceneNode.linksLt b (.text i t chunks) = chunks.all (chunkLt b) := by
  simp [SceneNode.linksLt]

theorem conv_elements_isSome (dc : List GNode) (bound : Nat) (hle : bound ≤ dc.length) :
    ∀ (pt : EId) (f : SceneForest), SceneForest.linksLt bound f = true →
      (conv_elements dc pt f).isSome = true := by
  intro pt0 f0 h0
  refine conv_elements.induct dc
    (fun pt n => SceneNode.linksLt bound n = true → (conv_element_node dc pt n).isSome = true)
    (fun pt f => SceneForest.linksLt bound f = true → (conv_elements dc pt f).isSome = true)
    ?_ ?_ ?_ ?_ ?_ ?_ pt0 f0 h0
  · intro pt id ts d fill stroke h
    rw [linksLt_path, Bool.and_eq_true] at h
    obtain ⟨fa, hfa⟩ := Option.isSome_iff_exists.mp (conv_fill_isSome pt hle h.1)
    obtain ⟨sa, hsa⟩ := Option.isSome_iff_exists.mp (conv_stroke_isSome hle h.2)
    simp [conv_element_node, hfa, hsa]
  · intro pt id ts chunks h
    rw [linksLt_text] at h
    obtain ⟨f, hf⟩ := Option.isSome_iff_exists.mp (conv_text_chunks_isSome pt hle chunks h)
    simp [conv_element_node, hf]
  · intro pt id ts img _
    simp [conv_element_node]
  · intro pt id ts opacity cp children ih h
    rw [linksLt_group, Bool.and_eq_true] at h
    obtain ⟨f, hf⟩ := Option.isSome_iff_exists.mp (ih h.2)
    cases hcp : cp with
    | none => simp [conv_element_node, hf]
    | some idx =>
      have hlt : idx < dc.length := by
        have : idx < bound := by
          have h1 := h.1
          rw [hcp] at h1
          simpa [cpLt] using h1
        exact lt_of_lt_of_le this hle
      obtain ⟨p, hp⟩ := Option.isSome_iff_exists.mp (getElem?_isSome_of_lt hlt)
      simp [conv_element_node, hf, hp]
  · intro pt _
    rfl
  · intro pt n rest ihn ihr h
    simp only [SceneForest.linksLt, Bool.and_eq_true] at h
    obtain ⟨g, hg⟩ := Option.isSome_iff_exists.mp (ihn h.1)
    obtain ⟨f, hf⟩ := Option.isSome_iff_exists.mp (ihr h.2)
    simp [conv_elements, hg, hf]

/-- The no-recursive-defs property of a definitions entry: its content subtree
contains no defs links at all. -/
def DefsNode.noInnerLinks : DefsNode → Bool
  | .linearGradient _ => true
  | .radialGradient _ => true
  | .clipPath _ _ _ ch => SceneForest.linksLt 0 ch
  | .pattern _ _ _ _ _ _ ch => SceneForest.linksLt 0 ch

theorem isSome_bind_some {a b : Type} (x : Option a) (k : a → b) :
    (x >>= (fun v => some (k v))).isSome = x.isSome := by
  cases x <;> rfl

theorem conv_defs_entry_isSome {e : DefsNode} (acc : List GNode) (h : e.noInnerLinks = true) :
    (conv_defs_entry acc e).isSome = true := by
  cases e with
  | linearGradient lg => rfl
  | radialGradient rg => rfl
  | clipPath i u t ch =>
    simp only [conv_defs_entry]
    rw [isSome_bind_some]
    exact conv_elements_isSome _ 0 (Nat.zero_le _) .ClipPath ch
      (by simpa [DefsNode.noInnerLinks] using h)
  | pattern i rect vb u cu t ch =>
    simp only [conv_defs_entry]
    rw [isSome_bind_some]
    exact conv_elements_isSome _ 0 (Nat.zero_le _) .Pattern ch
      (by simpa [DefsNode.noInnerLinks] using h)

theorem conv_defs_list_isSome :
    ∀ (entries : List DefsNode) (acc : List GNode),
      entries.all DefsNode.noInnerLinks = true → (conv_defs_list acc entries).isSome = true := by
  intro entries
  induction entries with
  | nil => intro _ _; rfl
  | cons e rest ih =>
    intro acc h
    simp only [List.all_cons, Bool.and_eq_true] at h
    obtain ⟨g, hg⟩ := Option.isSome_iff_exists.mp (conv_defs_entry_isSome acc h.1)
    obtain ⟨js, hjs⟩ := Option.isSome_iff_exists.mp (ih (acc ++ [g]) h.2)
    simp [conv_defs_list, hg, hjs]

theorem conv_defs_entry_sig {acc : List GNode} {e : DefsNode} {g : GNode}
    (h : conv_defs_entry acc e = some g) : g.tag = e.defsTag ∧ g.id = e.defsId := by
  cases e with
  | linearGradient lg =>
    simp only [conv_defs_entry, Option.some.injEq] at h
    subst h
    exact ⟨rfl, rfl⟩
  | radialGradient rg =>
    simp only [conv_defs_entry, Option.some.injEq] at h
    subst h
    exact ⟨rfl, rfl⟩
  | clipPath i u t ch =>
    simp only [conv_defs_entry, bind, Option.bind_eq_some] at h
    obtain ⟨f, _, h2⟩ := h
    simp only [Option.some.injEq] at h2
    subst h2
    exact ⟨rfl, rfl⟩
  | pattern i rect vb u cu t ch =>
    simp only [conv_defs_entry, bind, Option.bind_eq_some] at h
    obtain ⟨f, _, h2⟩ := h
    simp only [Option.some.injEq] at h2
    subst h2
    exact ⟨rfl, rfl⟩

theorem conv_defs_list_sig :
    ∀ {entries : List DefsNode} {acc js : List GNode},
      conv_defs_list acc entries = some js →
      js.map (fun g => (g.tag, g.id)) = entries.map (fun e => (e.defsTag, e.defsId)) := by
  intro entries
  induction entries with
  | nil =>
    intro acc js h
    simp only [conv_defs_list, Option.some.injEq] at h
    subst h
    rfl
  | cons e rest ih =>
    intro acc js h
    simp only [conv_defs_list, bind, Option.bind_eq_some] at h
    obtain ⟨g, hg, h2⟩ := h
    obtain ⟨js2, hjs, h3⟩ := h2
    simp only [Option.some.injEq] at h3
    subst h3
    obtain ⟨ht, hi⟩ := conv_defs_entry_sig hg
    simp [ht, hi, ih hjs]

theorem conv_defs_list_length {entries : List DefsNode} {acc js : List GNode}
    (h : conv_defs_list acc entries = some js) : js.length = entries.length := by
  have hs := conv_defs_list_sig h
  calc js.length = (js.map (fun g => (g.tag, g.id))).length := (List.length_map _ _).symm
    _ = (entries.map (fun e => (e.defsTag, e.defsId))).length := by rw [hs]
    _ = entries.length := List.length_map _ _

theorem conv_doc_isSome {d : Document}
    (hc : SceneForest.linksLt d.defs.length d.content = true)
    (hd : d.defs.all DefsNode.noInnerLinks = true) :
    (conv_doc d).isSome = true := by
  obtain ⟨js, hjs⟩ := Option.isSome_iff_exists.mp (conv_defs_list_isSome d.defs [] hd)
  have hlen : js.length = d.defs.length := conv_defs_list_length hjs
  obtain ⟨f, hf⟩ := Option.isSome_iff_exists.mp
    (conv_elements_isSome js d.defs.length (le_of_eq hlen.symm) .Svg d.content hc)
  simp [conv_doc, hjs, hf]

theorem convert_ref_list_noInnerLinks (cb : Collab) :
    ∀ (l : List GNode), (convert_ref_list cb l).all DefsNode.noInnerLinks = true := by
  intro l
  induction l with
  | nil => rfl
  | cons n rest ih =>
    cases hr : n.referenced with
    | false => simpa [convert_ref_list, hr] using ih
    | true =>
      cases htag : n.tag <;>
        simp_all [convert_ref_list, hr, htag, convert_linear, convert_radial,
          convert_clippath, convert_pattern, DefsNode.noInnerLinks] <;>
        simpa using convert_nodes_linksLt cb [] n.children

end Resvg

namespace Resvg

/-- Every defs link in a Scene Document is in bounds: content links are below
the definitions-list length and definitions entries contain no defs links. -/
def Document.linksInBounds (d : Document) : Bool :=
  SceneForest.linksLt d.defs.length d.content && d.defs.all DefsNode.noInnerLinks

theorem convert_ref_nodes_noInnerLinks (cb : Collab) (svg_doc : GForest) :
    (convert_ref_nodes cb svg_doc).all DefsNode.noInnerLinks = true := by
  unfold convert_ref_nodes
  cases defs_element svg_doc with
  | none => rfl
  | some defsN => exact convert_ref_list_noInnerLinks cb _

/-- C10: every document built by the forward resolver keeps every paint link
and clip link strictly below the definitions-list length, and the inverse
serializer therefore succeeds on it: no positional defs lookup ever fails. -/
theorem resolver_links_in_bounds (cb : Collab) (svg_doc : GForest) (opt : Options)
    (d : Document) (h : convert_doc cb svg_doc opt = .ok d) :
    d.linksInBounds = true ∧ (conv_doc d).isSome = true := by
  unfold convert_doc at h
  cases hs : svg_element svg_doc with
  | none => rw [hs] at h; exact absurd h (by simp)
  | some svg =>
    simp only [hs] at h
    cases hw : get_img_size svg with
    | error e =>
      simp only [hw, bind, Except.bind] at h
      exact absurd h (by simp)
    | ok size =>
      cases hv : get_view_box svg with
      | error e =>
        simp only [hw, hv, bind, Except.bind] at h
        exact absurd h (by simp)
      | ok vb =>
        simp only [hw, hv, bind, Except.bind, Except.ok.injEq] at h
        subst h
        have hddefs : (convert_ref_nodes cb svg_doc).all DefsNode.noInnerLinks = true :=
          convert_ref_nodes_noInnerLinks cb svg_doc
        refine ⟨?_, ?_⟩
        · simp only [Document.linksInBounds, Bool.and_eq_true]
          exact ⟨convert_nodes_linksLt cb _ svg.children, hddefs⟩
        · exact conv_doc_isSome (convert_nodes_linksLt cb _ svg.children) hddefs

deriving instance DecidableEq for Except

/-- A concrete input tree: one referenced linear gradient in defs and one path
whose fill links to it. -/
def exTreeC10 : GForest :=
  .cons (.mk .Svg "" false
    [(AId.Width, .number 1), (AId.Height, .number 1), (AId.ViewBox, .viewBox ⟨0, 0, 1, 1⟩)] ""
    (.cons (.mk .Defs "" false [] ""
      (.cons (.mk .LinearGradient "g1" true [] "" .nil) .nil))
      (.cons (.mk .Path "p1" false
        [(AId.D, .pathData [.closePath]), (AId.Fill, .funcLink .LinearGradient "g1")] "" .nil)
        .nil))) .nil

/-- The document the forward resolver builds from exTreeC10. -/
def exDocC10 : Document :=
  { svg := { size := ⟨1, 1⟩, view_box := ⟨0, 0, 1, 1⟩, dpi := 96 }
    defs := [.linearGradient
      { id := "g1", x1 := 0, y1 := 0, x2 := 1, y2 := 0
        d := { units := .UserSpaceOnUse, transform := Transform.identity, spread_method := .Pad }
        stops := [] }]
    content := .cons (.path "p1" Transform.identity [.closePath]
      (some { paint := .link 0, opacity := 1, rule := .NonZero }) none) .nil }

/-- C10 witness at a concrete document with one gradient link. -/
theorem resolver_links_in_bounds_witness :
    exDocC10.linksInBounds = true ∧ (conv_doc exDocC10).isSome = true :=
  resolver_links_in_bounds ⟨fun _ => none⟩ exTreeC10 ⟨96⟩ exDocC10 (by with_unfolding_all rfl)


end Resvg

namespace Resvg

/-- The documented defaults of the value-codec table (spec section 4.2), as a
predicate on an emitted attribute: true when the attribute has a documented
default and the emitted value equals it, with the epsilon-tolerant comparison
for float values. -/
def isDefault42 (a : AId) (v : AValue) : Bool :=
  match a, v with
  | .X1, .number n => fuzzy_eq n 0
  | .Y1, .number n => fuzzy_eq n 0
  | .X2, .number n => fuzzy_eq n 1
  | .Y2, .number n => fuzzy_eq n 0
  | .Cx, .number n => fuzzy_eq n (1/2)
  | .Cy, .number n => fuzzy_eq n (1/2)
  | .R, .number n => fuzzy_eq n (1/2)
  | .Fx, .number n => fuzzy_eq n (1/2)
  | .Fy, .number n => fuzzy_eq n (1/2)
  | .Offset, .number n => fuzzy_eq n 0
  | .StopColor, .color c => c == ⟨0, 0, 0⟩
  | .StopOpacity, .number n => fuzzy_eq n 1
  | .FillOpacity, .number n => fuzzy_eq n 1
  | .StrokeOpacity, .number n => fuzzy_eq n 1
  | .SpreadMethod, .predef v => v == ValueId.Pad
  | .FillRule, .predef v => v == ValueId.Nonzero
  | .StrokeWidth, .number n => fuzzy_eq n 1
  | .StrokeMiterlimit, .number n => fuzzy_eq n 4
  | .StrokeDashoffset, .number n => fuzzy_eq n 0
  | .StrokeLinecap, .predef v => v == ValueId.Butt
  | .StrokeLinejoin, .predef v => v == ValueId.Miter
  | .GradientUnits, .predef v => v == ValueId.UserSpaceOnUse
  | .PatternUnits, .predef v => v == ValueId.UserSpaceOnUse
  | .PatternContentUnits, .predef v => v == ValueId.UserSpaceOnUse
  | _, _ => false

/-- The attributes the serializer writes unconditionally: gradient geometry,
gradient and pattern units, spread method and stop attributes. -/
def alwaysEmitted : List AId :=
  [.X1, .Y1, .X2, .Y2, .Cx, .Cy, .R, .Fx, .Fy, .Offset, .StopColor, .StopOpacity,
   .SpreadMethod, .GradientUnits, .PatternUnits, .PatternContentUnits]

/-- An emitted attribute respects the conditional-emission rule when its value
is not a documented default, or the attribute belongs to the unconditionally
emitted family. -/
def attrOk (p : AId × AValue) : Bool :=
  ! isDefault42 p.1 p.2 || alwaysEmitted.contains p.1

mutual

/-- Every attribute of a node and of its subtree respects attrOk. -/
def GNode.attrsOk : GNode → Bool
  | .mk _ _ _ attrs _ children => attrs.all attrOk && GForest.attrsOk children

/-- Every attribute in a forest respects attrOk. -/
def GForest.attrsOk : GForest → Bool
  | .nil => true
  | .cons n rest => GNode.attrsOk n && GForest.attrsOk rest

end

mutual

/-- Some attribute somewhere in the node has a documented default value. -/
def GNode.hasDefaultAttr : GNode → Bool
  | .mk _ _ _ attrs _ children =>
    attrs.any (fun p => isDefault42 p.1 p.2) || GForest.hasDefaultAttr children

/-- Some attribute somewhere in the forest has a documented default value. -/
def GForest.hasDefaultAttr : GForest → Bool
  | .nil => false
  | .cons n rest => GNode.hasDefaultAttr n || GForest.hasDefaultAttr rest

end

theorem isDefault42_transform (a : AId) (t : Transform) :
    isDefault42 a (.transform t) = false := by
  cases a <;> rfl

theorem isDefault42_str (a : AId) (s : String) :
    isDefault42 a (.str s) = false := by
  cases a <;> rfl

theorem isDefault42_funcLink (a : AId) (e : EId) (s : String) :
    isDefault42 a (.funcLink e s) = false := by
  cases a <;> rfl

theorem isDefault42_pathData (a : AId) (d : List PathSegment) :
    isDefault42 a (.pathData d) = false := by
  cases a <;> rfl

theorem isDefault42_viewBox (a : AId) (r : Rect) :
    isDefault42 a (.viewBox r) = false := by
  cases a <;> rfl

theorem isDefault42_numberList (a : AId) (ns : List Rat) :
    isDefault42 a (.numberList ns) = false := by
  cases a <;> rfl

theorem attrOk_not_default {a : AId} {v : AValue} (h : isDefault42 a v = false) :
    attrOk (a, v) = true := by
  simp [attrOk, h]

theorem attrOk_conv_transform (aid : AId) (ts : Transform) :
    (conv_transform aid ts).all attrOk = true := by
  unfold conv_transform
  split_ifs <;> simp [attrOk_not_default, isDefault42_transform]

theorem fuzzy_ne_to_eq_false {a b : Rat} (h : fuzzy_ne a b = true) : fuzzy_eq a b = false := by
  simpa [fuzzy_ne] using h

end Resvg

namespace Resvg

theorem conv_fill_attrsOk {fill : Option Fill} {dc : List GNode} {pt : EId}
    {l : List (AId × AValue)} (h : conv_fill fill dc pt = some l) :
    l.all attrOk = true := by
  cases fill with
  | none =>
    simp only [conv_fill, Option.some.injEq] at h
    subst h
    rfl
  | some f =>
    cases hp : f.paint with
    | color c =>
      simp only [conv_fill, hp, bind, Option.bind, Option.some.injEq] at h
      subst h
      split_ifs with h1 h2 h3 <;>
        simp [attrOk, isDefault42, alwaysEmitted, fuzzy_ne_to_eq_false, *]
    | link idx =>
      simp only [conv_fill, hp] at h
      cases hg : dc.get? idx with
      | none => rw [hg] at h; exact absurd h (by simp [bind, Option.bind])
      | some p =>
        rw [hg] at h
        simp only [Option.map_some', bind, Option.bind, Option.some.injEq] at h
        subst h
        split_ifs with h1 h2 h3 <;>
          simp [attrOk, isDefault42, alwaysEmitted, fuzzy_ne_to_eq_false,
            isDefault42_funcLink, *]

theorem all_attrOk_append_if {l : List (AId × AValue)} {c : Prop} [Decidable c]
    {x : AId × AValue} (hl : l.all attrOk = true) (hx : c → attrOk x = true) :
    (if c then l ++ [x] else l).all attrOk = true := by
  split_ifs with h
  · simp [List.all_append, hl, hx h]
  · exact hl

theorem attrOk_linecap (lc : LineCap) :
    lc ≠ LineCap.Butt →
    attrOk (AId.StrokeLinecap, AValue.predef (match lc with
      | LineCap.Butt => ValueId.Butt | LineCap.Round => ValueId.Round
      | LineCap.Square => ValueId.Square)) = true := by
  cases lc
  · intro h; exact absurd rfl h
  · intro _; decide
  · intro _; decide

theorem attrOk_linejoin (lj : LineJoin) :
    lj ≠ LineJoin.Miter →
    attrOk (AId.StrokeLinejoin, AValue.predef (match lj with
      | LineJoin.Miter => ValueId.Miter | LineJoin.Round => ValueId.Round
      | LineJoin.Bevel => ValueId.Bevel)) = true := by
  cases lj
  · intro h; exact absurd rfl h
  · intro _; decide
  · intro _; decide

theorem attrOk_fuzzy {a : AId} {n b : Rat}
    (hrow : isDefault42 a (.number n) = fuzzy_eq n b)
    (h : fuzzy_ne n b = true) : attrOk (a, .number n) = true := by
  simp [attrOk, hrow, fuzzy_ne_to_eq_false h]

theorem conv_stroke_attrsOk {stroke : Option Stroke} {dc : List GNode}
    {l : List (AId × AValue)} (h : conv_stroke stroke dc = some l) :
    l.all attrOk = true := by
  cases stroke with
  | none =>
    simp only [conv_stroke, Option.some.injEq] at h
    subst h
    rfl
  | some st =>
    cases hp : st.paint with
    | color c =>
      simp only [conv_stroke, hp, bind, Option.bind, Option.some.injEq] at h
      subst h
      cases hda : st.dasharray with
      | none =>
        refine all_attrOk_append_if (all_attrOk_append_if (all_attrOk_append_if
          (all_attrOk_append_if (all_attrOk_append_if (all_attrOk_append_if
            (by simp [attrOk, isDefault42]) (fun hcnd => attrOk_fuzzy rfl hcnd))
            (fun hcnd => attrOk_fuzzy rfl hcnd)) (fun hcnd => attrOk_fuzzy rfl hcnd))
          (fun hcnd => attrOk_fuzzy rfl hcnd)) (fun hcnd => attrOk_linecap _ hcnd))
          (fun hcnd => attrOk_linejoin _ hcnd)
      | some arr =>
        rw [List.all_append, Bool.and_eq_true]
        constructor
        · refine all_attrOk_append_if (all_attrOk_append_if (all_attrOk_append_if
            (all_attrOk_append_if (all_attrOk_append_if (all_attrOk_append_if
              (by simp [attrOk, isDefault42]) (fun hcnd => attrOk_fuzzy rfl hcnd))
              (fun hcnd => attrOk_fuzzy rfl hcnd)) (fun hcnd => attrOk_fuzzy rfl hcnd))
            (fun hcnd => attrOk_fuzzy rfl hcnd)) (fun hcnd => attrOk_linecap _ hcnd))
            (fun hcnd => attrOk_linejoin _ hcnd)
        · simp [attrOk, isDefault42_numberList]
    | link idx =>
      simp only [conv_stroke, hp] at h
      cases hg : dc.get? idx with
      | none => rw [hg] at h; exact absurd h (by simp [bind, Option.bind])
      | some p =>
        rw [hg] at h
        simp only [Option.map_some', bind, Option.bind, Option.some.injEq] at h
        subst h
        cases hda : st.dasharray with
        | none =>
          refine all_attrOk_append_if (all_attrOk_append_if (all_attrOk_append_if
            (all_attrOk_append_if (all_attrOk_append_if (all_attrOk_append_if
              (by simp [attrOk, isDefault42_funcLink]) (fun hcnd => attrOk_fuzzy rfl hcnd))
              (fun hcnd => attrOk_fuzzy rfl hcnd)) (fun hcnd => attrOk_fuzzy rfl hcnd))
            (fun hcnd => attrOk_fuzzy rfl hcnd)) (fun hcnd => attrOk_linecap _ hcnd))
            (fun hcnd => attrOk_linejoin _ hcnd)
        | some arr =>
          rw [List.all_append, Bool.and_eq_true]
          constructor
          · refine all_attrOk_append_if (all_attrOk_append_if (all_attrOk_append_if
              (all_attrOk_append_if (all_attrOk_append_if (all_attrOk_append_if
                (by simp [attrOk, isDefault42_funcLink]) (fun hcnd => attrOk_fuzzy rfl hcnd))
                (fun hcnd => attrOk_fuzzy rfl hcnd)) (fun hcnd => attrOk_fuzzy rfl hcnd))
              (fun hcnd => attrOk_fuzzy rfl hcnd)) (fun hcnd => attrOk_linecap _ hcnd))
              (fun hcnd => attrOk_linejoin _ hcnd)
          · simp [attrOk, isDefault42_numberList]

theorem attrOk_font_style (s : FontStyle) :
    attrOk (AId.FontStyle, AValue.predef (match s with
      | FontStyle.Normal => ValueId.Normal | FontStyle.Italic => ValueId.Italic
      | FontStyle.Oblique => ValueId.Oblique)) = true := by
  cases s <;> decide

theorem attrOk_font_variant (s : FontVariant) :
    attrOk (AId.FontVariant, AValue.predef (match s with
      | FontVariant.Normal => ValueId.Normal
      | FontVariant.SmallCaps => ValueId.SmallCaps)) = true := by
  cases s <;> decide

theorem attrOk_font_weight (s : FontWeight) :
    attrOk (AId.FontWeight, AValue.predef (match s with
      | FontWeight.Normal => ValueId.Normal | FontWeight.Bold => ValueId.Bold
      | FontWeight.Bolder => ValueId.Bolder | FontWeight.Lighter => ValueId.Lighter
      | FontWeight.W100 => ValueId.N100 | FontWeight.W200 => ValueId.N200
      | FontWeight.W300 => ValueId.N300 | FontWeight.W400 => ValueId.N400
      | FontWeight.W500 => ValueId.N500 | FontWeight.W600 => ValueId.N600
      | FontWeight.W700 => ValueId.N700 | FontWeight.W800 => ValueId.N800
      | FontWeight.W900 => ValueId.N900)) = true := by
  cases s <;> decide

theorem attrOk_font_stretch (s : FontStretch) :
    attrOk (AId.FontStretch, AValue.predef (match s with
      | FontStretch.Normal => ValueId.Normal | FontStretch.Wider => ValueId.Wider
      | FontStretch.Narrower => ValueId.Narrower
      | FontStretch.UltraCondensed => ValueId.UltraCondensed
      | FontStretch.ExtraCondensed => ValueId.ExtraCondensed
      | FontStretch.Condensed => ValueId.Condensed
      | FontStretch.SemiCondensed => ValueId.SemiCondensed
      | FontStretch.SemiExpanded => ValueId.SemiExpanded
      | FontStretch.Expanded => ValueId.Expanded
      | FontStretch.ExtraExpanded => ValueId.ExtraExpanded
      | FontStretch.UltraExpanded => ValueId.UltraExpanded)) = true := by
  cases s <;> decide

theorem isDefault42_FontSize (n : Rat) : isDefault42 .FontSize (.number n) = false := rfl

theorem conv_font_attrsOk (font : Font) : (conv_font font).all attrOk = true := by
  unfold conv_font
  refine all_attrOk_append_if (all_attrOk_append_if (all_attrOk_append_if
    (all_attrOk_append_if ?_ (fun _ => attrOk_font_style font.style))
    (fun _ => attrOk_font_variant font.variant))
    (fun _ => attrOk_font_weight font.weight))
    (fun _ => attrOk_font_stretch font.stretch)
  simp [attrOk, isDefault42_str, isDefault42_FontSize]

end Resvg

namespace Resvg

theorem isDefault42_X (n : Rat) : isDefault42 .X (.number n) = false := rfl

theorem isDefault42_Y (n : Rat) : isDefault42 .Y (.number n) = false := rfl

theorem isDefault42_Width (n : Rat) : isDefault42 .Width (.number n) = false := rfl

theorem isDefault42_Height (n : Rat) : isDefault42 .Height (.number n) = false := rfl

theorem isDefault42_Opacity (n : Rat) : isDefault42 .Opacity (.number n) = false := rfl

theorem attrsOk_mk (tag : EId) (id : String) (ref : Bool) (a : List (AId × AValue))
    (txt : String) (ch : GForest) :
    GNode.attrsOk (.mk tag id ref a txt ch) = (a.all attrOk && GForest.attrsOk ch) := by
  simp [GNode.attrsOk]

theorem attrOk_text_anchor (a : TextAnchor) :
    attrOk (AId.TextAnchor, AValue.predef (match a with
      | TextAnchor.Start => ValueId.Start | TextAnchor.Middle => ValueId.Middle
      | TextAnchor.End => ValueId.End)) = true := by
  cases a <;> decide

theorem conv_text_span_attrsOk {dc : List GNode} {pt : EId} {sp : TSpan} {g : GNode}
    (h : conv_text_span dc pt sp = some g) : GNode.attrsOk g = true := by
  simp only [conv_text_span, bind] at h
  obtain ⟨fa, hfa, h2⟩ := Option.bind_eq_some.mp h
  obtain ⟨sa, hsa, h3⟩ := Option.bind_eq_some.mp h2
  simp only [Option.some.injEq] at h3
  subst h3
  simp [attrsOk_mk, List.all_append, conv_fill_attrsOk hfa, conv_stroke_attrsOk hsa,
    conv_font_attrsOk, GForest.attrsOk]

theorem conv_text_spans_attrsOk {dc : List GNode} {pt : EId} :
    ∀ {sps : List TSpan} {f : GForest}, conv_text_spans dc pt sps = some f →
      GForest.attrsOk f = true := by
  intro sps
  induction sps with
  | nil =>
    intro f h
    simp only [conv_text_spans, Option.some.injEq] at h
    subst h
    rfl
  | cons sp rest ih =>
    intro f h
    simp only [conv_text_spans, bind] at h
    obtain ⟨g, hg, h2⟩ := Option.bind_eq_some.mp h
    obtain ⟨f2, hf2, h3⟩ := Option.bind_eq_some.mp h2
    simp only [Option.some.injEq] at h3
    subst h3
    simp [GForest.attrsOk, conv_text_span_attrsOk hg, ih hf2]

theorem conv_text_chunk_attrsOk {dc : List GNode} {pt : EId} {ch : TextChunk} {g : GNode}
    (h : conv_text_chunk dc pt ch = some g) : GNode.attrsOk g = true := by
  simp only [conv_text_chunk, bind] at h
  obtain ⟨f, hf, h2⟩ := Option.bind_eq_some.mp h
  simp only [Option.some.injEq] at h2
  subst h2
  rw [attrsOk_mk, Bool.and_eq_true]
  refine ⟨?_, conv_text_spans_attrsOk hf⟩
  rw [List.all_append, Bool.and_eq_true]
  constructor
  · simp [attrOk_not_default, isDefault42_X, isDefault42_Y]
  · split_ifs
    · simp [attrOk_text_anchor]
    · rfl

theorem conv_text_chunks_attrsOk {dc : List GNode} {pt : EId} :
    ∀ {chs : List TextChunk} {f : GForest}, conv_text_chunks dc pt chs = some f →
      GForest.attrsOk f = true := by
  intro chs
  induction chs with
  | nil =>
    intro f h
    simp only [conv_text_chunks, Option.some.injEq] at h
    subst h
    rfl
  | cons ch rest ih =>
    intro f h
    simp only [conv_text_chunks, bind] at h
    obtain ⟨g, hg, h2⟩ := Option.bind_eq_some.mp h
    obtain ⟨f2, hf2, h3⟩ := Option.bind_eq_some.mp h2
    simp only [Option.some.injEq] at h3
    subst h3
    simp [GForest.attrsOk, conv_text_chunk_attrsOk hg, ih hf2]

theorem conv_elements_attrsOk (dc : List GNode) :
    ∀ (pt : EId) (f : SceneForest) (out : GForest),
      conv_elements dc pt f = some out → GForest.attrsOk out = true := by
  intro pt0 f0 out0 h0
  revert out0 h0
  refine conv_elements.induct dc
    (fun pt n => ∀ out, conv_element_node dc pt n = some out → GNode.attrsOk out = true)
    (fun pt f => ∀ out, conv_elements dc pt f = some out → GForest.attrsOk out = true)
    ?_ ?_ ?_ ?_ ?_ ?_ pt0 f0
  · intro pt id ts d fill stroke out h
    simp only [conv_element_node, bind] at h
    obtain ⟨fa, hfa, h2⟩ := Option.bind_eq_some.mp h
    obtain ⟨sa, hsa, h3⟩ := Option.bind_eq_some.mp h2
    simp only [Option.some.injEq] at h3
    subst h3
    simp [attrsOk_mk, List.all_append, attrOk_conv_transform,
      conv_fill_attrsOk hfa, conv_stroke_attrsOk hsa, GForest.attrsOk,
      attrOk_not_default, isDefault42_pathData]
  · intro pt id ts chunks out h
    simp only [conv_element_node, bind] at h
    obtain ⟨f, hf, h2⟩ := Option.bind_eq_some.mp h
    simp only [Option.some.injEq] at h2
    subst h2
    simp [attrsOk_mk, attrOk_conv_transform, conv_text_chunks_attrsOk hf]
  · intro pt id ts img out h
    simp only [conv_element_node, Option.some.injEq] at h
    subst h
    simp [attrsOk_mk, List.all_append, attrOk_conv_transform, GForest.attrsOk,
      attrOk_not_default, isDefault42_X, isDefault42_Y, isDefault42_Width,
      isDefault42_Height, isDefault42_str]
  · intro pt id ts opacity cp children ih out h
    simp only [conv_element_node, bind] at h
    obtain ⟨ca, hca, h2⟩ := Option.bind_eq_some.mp h
    obtain ⟨f, hf, h3⟩ := Option.bind_eq_some.mp h2
    simp only [Option.some.injEq] at h3
    subst h3
    rw [attrsOk_mk, Bool.and_eq_true]
    refine ⟨?_, ih f hf⟩
    rw [List.all_append, List.all_append, Bool.and_eq_true, Bool.and_eq_true]
    refine ⟨⟨attrOk_conv_transform _ _, ?_⟩, ?_⟩
    · cases cp with
      | none =>
        simp at hca
        subst hca
        rfl
      | some idx =>
        simp only [Option.map_eq_some'] at hca
        obtain ⟨p, hp2, hca2⟩ := hca
        subst hca2
        simp [attrOk_not_default, isDefault42_funcLink]
    · cases opacity with
      | none => rfl
      | some o =>
        simp only []
        split_ifs
        · simp [attrOk_not_default, isDefault42_Opacity]
        · rfl
  · intro pt out h
    simp only [conv_elements, Option.some.injEq] at h
    subst h
    rfl
  · intro pt n rest ihn ihr out h
    simp only [conv_elements, bind] at h
    obtain ⟨g, hg, h2⟩ := Option.bind_eq_some.mp h
    obtain ⟨f, hf, h3⟩ := Option.bind_eq_some.mp h2
    simp only [Option.some.injEq] at h3
    subst h3
    simp [GForest.attrsOk, ihn g hg, ihr f hf]

end Resvg

namespace Resvg

theorem attrOk_conv_units (aid : AId) (u : Units) : attrOk (conv_units aid u) = true := by
  cases aid <;> cases u <;> decide

theorem conv_base_grad_attrs_attrsOk (g : BaseGradient) :
    (conv_base_grad_attrs g).all attrOk = true := by
  unfold conv_base_grad_attrs
  rw [List.all_append, Bool.and_eq_true]
  constructor
  · cases g.units <;> cases g.spread_method <;> decide
  · exact attrOk_conv_transform _ _

theorem conv_stop_children_attrsOk :
    ∀ (stops : List Stop), GForest.attrsOk (conv_stop_children stops) = true := by
  intro stops
  induction stops with
  | nil => rfl
  | cons s rest ih =>
    simp [conv_stop_children, GForest.attrsOk, attrsOk_mk, ih, attrOk, alwaysEmitted]

theorem conv_defs_entry_attrsOk {acc : List GNode} {e : DefsNode} {g : GNode}
    (h : conv_defs_entry acc e = some g) : GNode.attrsOk g = true := by
  cases e with
  | linearGradient lg =>
    simp only [conv_defs_entry, Option.some.injEq] at h
    subst h
    rw [attrsOk_mk, Bool.and_eq_true]
    refine ⟨?_, conv_stop_children_attrsOk lg.stops⟩
    rw [List.all_append, Bool.and_eq_true]
    exact ⟨by simp [attrOk, alwaysEmitted], conv_base_grad_attrs_attrsOk lg.d⟩
  | radialGradient rg =>
    simp only [conv_defs_entry, Option.some.injEq] at h
    subst h
    rw [attrsOk_mk, Bool.and_eq_true]
    refine ⟨?_, conv_stop_children_attrsOk rg.stops⟩
    rw [List.all_append, Bool.and_eq_true]
    exact ⟨by simp [attrOk, alwaysEmitted], conv_base_grad_attrs_attrsOk rg.d⟩
  | clipPath i u t ch =>
    simp only [conv_defs_entry, bind] at h
    obtain ⟨f, hf, h2⟩ := Option.bind_eq_some.mp h
    simp only [Option.some.injEq] at h2
    subst h2
    rw [attrsOk_mk, Bool.and_eq_true]
    refine ⟨?_, conv_elements_attrsOk _ _ _ _ hf⟩
    rw [List.all_append, Bool.and_eq_true]
    exact ⟨by simp [attrOk_conv_units], attrOk_conv_transform _ _⟩
  | pattern i rect vb u cu t ch =>
    simp only [conv_defs_entry, bind] at h
    obtain ⟨f, hf, h2⟩ := Option.bind_eq_some.mp h
    simp only [Option.some.injEq] at h2
    subst h2
    rw [attrsOk_mk, Bool.and_eq_true]
    refine ⟨?_, conv_elements_attrsOk _ _ _ _ hf⟩
    rw [List.all_append, List.all_append, List.all_append, Bool.and_eq_true,
      Bool.and_eq_true, Bool.and_eq_true]
    refine ⟨⟨⟨?_, ?_⟩, ?_⟩, attrOk_conv_transform _ _⟩
    · simp [attrOk_not_default, isDefault42_X, isDefault42_Y, isDefault42_Width,
        isDefault42_Height]
    · cases vb with
      | none => rfl
      | some vbr => simp [attrOk_not_default, isDefault42_viewBox]
    · simp [attrOk_conv_units]

theorem conv_defs_list_attrsOk :
    ∀ {entries : List DefsNode} {acc js : List GNode},
      conv_defs_list acc entries = some js →
      js.all GNode.attrsOk = true := by
  intro entries
  induction entries with
  | nil =>
    intro acc js h
    simp only [conv_defs_list, Option.some.injEq] at h
    subst h
    rfl
  | cons e rest ih =>
    intro acc js h
    simp only [conv_defs_list, bind] at h
    obtain ⟨g, hg, h2⟩ := Option.bind_eq_some.mp h
    obtain ⟨js2, hjs, h3⟩ := Option.bind_eq_some.mp h2
    simp only [Option.some.injEq] at h3
    subst h3
    simp [conv_defs_entry_attrsOk hg, ih hjs]

theorem listToGForest_attrsOk {js : List GNode} (h : js.all GNode.attrsOk = true) :
    GForest.attrsOk (listToGForest js) = true := by
  induction js with
  | nil => rfl
  | cons g rest ih =>
    simp only [List.all_cons, Bool.and_eq_true] at h
    simp [listToGForest, GForest.attrsOk, h.1, ih h.2]

/-- C2 amended: the serializer never writes an attribute whose value equals its
documented default of the value-codec table, except for the unconditionally
emitted family (gradient coordinates, gradient and pattern units, spread
method, stop attributes), which it always writes regardless of value. -/
theorem serializer_conditional_emission (d : Document) (t : GNode)
    (h : conv_doc d = some t) : GNode.attrsOk t = true := by
  simp only [conv_doc, bind] at h
  obtain ⟨js, hjs, h2⟩ := Option.bind_eq_some.mp h
  obtain ⟨f, hf, h3⟩ := Option.bind_eq_some.mp h2
  simp only [Option.some.injEq] at h3
  subst h3
  rw [attrsOk_mk, Bool.and_eq_true]
  constructor
  · simp [svgRootAttrs, attrOk_not_default, isDefault42_str, isDefault42_Width,
      isDefault42_Height, isDefault42_viewBox]
  · simp only [GForest.attrsOk, Bool.and_eq_true]
    refine ⟨?_, conv_elements_attrsOk _ _ _ _ hf⟩
    rw [attrsOk_mk, Bool.and_eq_true]
    exact ⟨rfl, listToGForest_attrsOk (conv_defs_list_attrsOk hjs)⟩

/-- C2 counterexample: serializing a resolver-produced document holding a
default-valued linear gradient emits attributes whose values equal their
documented defaults (x1 = 0, spread method Pad, gradient units, among
others), so the unconditional-omission claim is false as stated. -/
theorem serializer_emits_default_valued_attr :
    (conv_doc exDocC10).map GNode.hasDefaultAttr = some true := by
  with_unfolding_all rfl

/-- C2 witness: the amended conditional-emission rule holds on the serialized
form of the concrete document exDocC10. -/
theorem serializer_conditional_emission_witness :
    (conv_doc exDocC10).map GNode.attrsOk = some true := by
  cases h : conv_doc exDocC10 with
  | none =>
    have hs : (conv_doc exDocC10).isSome = true := by with_unfolding_all rfl
    rw [h] at hs
    exact absurd hs (by decide)
  | some t =>
    simpa using serializer_conditional_emission exDocC10 t h

end Resvg

namespace Resvg

/-- A tree whose only reference to the gradient sits inside a group that the
resolver drops: the clip path the group links to exists in the tree but sits
outside the defs subtree, so the definitions pass never appends it and the
clip link does not resolve. -/
def exTreeC3 : GForest :=
  .cons (.mk .Svg "" false
    [(AId.Width, .number 1), (AId.Height, .number 1), (AId.ViewBox, .viewBox ⟨0, 0, 1, 1⟩)] ""
    (.cons (.mk .Defs "" false [] ""
      (.cons (.mk .LinearGradient "g1" true [] "" .nil) .nil))
      (.cons (.mk .ClipPath "cp1" true [] ""
        (.cons (.mk .Path "cpchild" false [(AId.D, .pathData [.closePath])] "" .nil) .nil))
        (.cons (.mk .G "grp" false [(AId.ClipPath, .funcLink .ClipPath "cp1")] ""
          (.cons (.mk .Path "p1" false
            [(AId.D, .pathData [.closePath]), (AId.Fill, .funcLink .LinearGradient "g1")] "" .nil)
            .nil))
          .nil)))) .nil

/-- C3 counterexample: the forward resolver turns exTreeC3 into a document with
one definitions entry (the gradient carried the referenced flag; its
referencing path sat inside the dropped group), but serializing and
re-resolving that document yields an empty definitions list: nothing links to
the gradient in the serialized tree, so its recomputed referenced flag is
false and the definitions pass skips it. -/
theorem roundtrip_drops_unreferenced_entry :
    ((convert_doc ⟨fun _ => none⟩ exTreeC3 ⟨96⟩).toOption.map
        (fun d => d.defs.length) = some 1) ∧
    ((convert_doc ⟨fun _ => none⟩ exTreeC3 ⟨96⟩).toOption.bind
        (fun d => (roundTrip ⟨fun _ => none⟩ ⟨96⟩ d).map
          (fun d2 => d2.defs.length)) = some 0) := by
  constructor
  · with_unfolding_all rfl
  · with_unfolding_all rfl

theorem markWith_tag (ids : List String) (n : GNode) :
    (GNode.markWith ids n).tag = n.tag := by
  cases n
  simp [GNode.markWith, GNode.tag]

theorem markWith_id (ids : List String) (n : GNode) :
    (GNode.markWith ids n).id = n.id := by
  cases n
  simp [GNode.markWith, GNode.id]

theorem toList_markWith_listToGForest (ids : List String) :
    ∀ (js : List GNode),
      (GForest.markWith ids (listToGForest js)).toList = js.map (GNode.markWith ids) := by
  intro js
  induction js with
  | nil => rfl
  | cons g rest ih => simp [listToGForest, GForest.markWith, GForest.toList, ih]

/-- The re-resolution of a list of defs children that are all flagged
referenced and carry defs-entry tags appends one entry per child, in order,
with the same tag and identifier. -/
theorem convert_ref_list_sig (cb : Collab) :
    ∀ (l : List GNode) (entries : List DefsNode),
      l.map (fun n => (n.tag, n.id)) = entries.map (fun e => (e.defsTag, e.defsId)) →
      (∀ n ∈ l, n.referenced = true) →
      (convert_ref_list cb l).map (fun e => (e.defsTag, e.defsId)) =
        entries.map (fun e => (e.defsTag, e.defsId)) := by
  intro l
  induction l with
  | nil =>
    intro entries h _
    simpa [convert_ref_list] using h
  | cons n rest ih =>
    intro entries h href
    cases entries with
    | nil => simp at h
    | cons e erest =>
      simp only [List.map_cons, List.cons.injEq] at h
      obtain ⟨hhead, htail⟩ := h
      have htag : n.tag = e.defsTag := congrArg Prod.fst hhead
      have hid : n.id = e.defsId := congrArg Prod.snd hhead
      have hr : n.referenced = true := href n (by simp)
      have hrest : ∀ m ∈ rest, m.referenced = true := fun m hm => href m (by simp [hm])
      have htailmap := ih erest htail hrest
      cases e with
      | linearGradient lg =>
        have hstep : convert_ref_list cb (n :: rest) =
            convert_linear n :: convert_ref_list cb rest := by
          simp [convert_ref_list, hr, htag, DefsNode.defsTag]
        rw [hstep, List.map_cons, List.map_cons, htailmap]
        congr 1
        simp [convert_linear, DefsNode.defsTag, DefsNode.defsId, hid]
      | radialGradient rg =>
        have hstep : convert_ref_list cb (n :: rest) =
            convert_radial n :: convert_ref_list cb rest := by
          simp [convert_ref_list, hr, htag, DefsNode.defsTag]
        rw [hstep, List.map_cons, List.map_cons, htailmap]
        congr 1
        simp [convert_radial, DefsNode.defsTag, DefsNode.defsId, hid]
      | clipPath i u t ch =>
        have hstep : convert_ref_list cb (n :: rest) =
            convert_clippath cb n :: convert_ref_list cb rest := by
          simp [convert_ref_list, hr, htag, DefsNode.defsTag]
        rw [hstep, List.map_cons, List.map_cons, htailmap]
        congr 1
        simp [convert_clippath, DefsNode.defsTag, DefsNode.defsId] at hid ⊢
        exact hid
      | pattern i rect vb u cu t ch =>
        have hstep : convert_ref_list cb (n :: rest) =
            convert_pattern cb n :: convert_ref_list cb rest := by
          simp [convert_ref_list, hr, htag, DefsNode.defsTag]
        rw [hstep, List.map_cons, List.map_cons, htailmap]
        congr 1
        simp [convert_pattern, DefsNode.defsTag, DefsNode.defsId] at hid ⊢
        exact hid

/-- Every child of the defs container of a serialized tree carries a true
referenced flag. -/
def allDefsChildrenReferenced (root : GNode) : Bool :=
  match defs_element (.cons root .nil) with
  | some defsN => defsN.children.toList.all (fun x => x.referenced)
  | none => true

/-- The defs element of a singleton document whose root is an svg element with
a defs container as first child. -/
theorem defs_element_shape (flag fdefs : Bool) (a : List (AId × AValue))
    (txt : String) (dchildren content : GForest) :
    defs_element (.cons (.mk .Svg "" flag a txt
        (.cons (.mk .Defs "" fdefs [] "" dchildren) content)) .nil) =
      some (.mk .Defs "" fdefs [] "" dchildren) := by
  simp [defs_element, svg_element, GForest.find?, GNode.tag, GNode.children]

/-- Re-resolving a tree of the shape the serializer emits succeeds, and its
definitions list is the conversion of the defs children. -/
theorem convert_doc_serialized_shape (cb : Collab) (opt : Options)
    (flag fdefs : Bool) (sv : Svg) (dchildren content : GForest) :
    convert_doc cb (.cons (.mk .Svg "" flag (svgRootAttrs sv) ""
        (.cons (.mk .Defs "" fdefs [] "" dchildren) content)) .nil) opt =
      .ok { svg :=
              { size := ⟨f64_round sv.size.w, f64_round sv.size.h⟩
                view_box := ⟨f64_round sv.view_box.x, f64_round sv.view_box.y,
                             f64_round sv.view_box.w, f64_round sv.view_box.h⟩
                dpi := opt.dpi }
            defs := convert_ref_list cb dchildren.toList
            content := convert_nodes cb (convert_ref_list cb dchildren.toList)
              (.cons (.mk .Defs "" fdefs [] "" dchildren) content) } := by
  simp [convert_doc, svg_element, GForest.find?, GNode.tag, GNode.attrs, GNode.children,
    get_img_size, get_view_box, get_number, get_viewbox_attr, get_type, List.find?,
    svgRootAttrs, bind, Except.bind, convert_ref_nodes, defs_element_shape]

end Resvg

namespace Resvg

theorem map_sig_markWith (I : List String) (js : List GNode) :
    (js.map (GNode.markWith I)).map (fun n => (n.tag, n.id)) =
      js.map (fun n => (n.tag, n.id)) := by
  induction js with
  | nil => rfl
  | cons g rest ih => simp [markWith_tag, markWith_id, ih]

theorem allDefsChildrenReferenced_shape (flag fdefs : Bool) (a : List (AId × AValue))
    (txt : String) (dchildren content : GForest) :
    allDefsChildrenReferenced (.mk .Svg "" flag a txt
        (.cons (.mk .Defs "" fdefs [] "" dchildren) content)) =
      dchildren.toList.all (fun x => x.referenced) := by
  simp [allDefsChildrenReferenced, defs_element_shape, GNode.children]

/-- C3 amended: serializing a document and re-resolving the marked result
yields a definitions list whose entries have the same kinds and identifiers in
the same order (hence the same length), provided every serialized defs child
is the target of some link in the serialized tree; an entry nothing links to
is dropped by the definitions pass on re-resolution. -/
theorem roundtrip_preserves_referenced_defs (cb : Collab) (opt : Options)
    (d : Document) (t : GNode)
    (h1 : conv_doc d = some t)
    (h2 : allDefsChildrenReferenced (markReferenced t) = true) :
    ∃ d2, roundTrip cb opt d = some d2 ∧
      d2.defs.length = d.defs.length ∧
      d2.defs.map (fun e => (e.defsTag, e.defsId)) =
        d.defs.map (fun e => (e.defsTag, e.defsId)) := by
  suffices hs : ∃ d2, roundTrip cb opt d = some d2 ∧
      d2.defs.map (fun e => (e.defsTag, e.defsId)) =
        d.defs.map (fun e => (e.defsTag, e.defsId)) by
    obtain ⟨d2, hrt, hmap⟩ := hs
    refine ⟨d2, hrt, ?_, hmap⟩
    calc d2.defs.length
        = (d2.defs.map (fun e => (e.defsTag, e.defsId))).length := (List.length_map _ _).symm
      _ = (d.defs.map (fun e => (e.defsTag, e.defsId))).length := by rw [hmap]
      _ = d.defs.length := List.length_map _ _
  have h1' := h1
  simp only [conv_doc, bind] at h1'
  obtain ⟨js, hjs, hrest⟩ := Option.bind_eq_some.mp h1'
  obtain ⟨f, hf, ht⟩ := Option.bind_eq_some.mp hrest
  simp only [Option.some.injEq] at ht
  subst ht
  simp only [roundTrip, h1]
  simp only [markReferenced, GNode.markWith, GForest.markWith] at h2 ⊢
  rw [allDefsChildrenReferenced_shape] at h2
  rw [toList_markWith_listToGForest] at h2
  rw [convert_doc_serialized_shape]
  refine ⟨_, rfl, ?_⟩
  show (convert_ref_list cb
      (GForest.markWith (GNode.linkIds (GNode.mk .Svg "" false (svgRootAttrs d.svg) ""
        (GForest.cons (GNode.mk .Defs "" false [] "" (listToGForest js)) f)))
        (listToGForest js)).toList).map (fun e => (e.defsTag, e.defsId)) =
    d.defs.map (fun e => (e.defsTag, e.defsId))
  rw [toList_markWith_listToGForest]
  refine convert_ref_list_sig cb _ d.defs ?_ ?_
  · rw [map_sig_markWith]
    exact conv_defs_list_sig hjs
  · intro n hn
    exact List.all_eq_true.mp h2 n hn

/-- C3 witness: on the concrete document exDocC10, whose single gradient is
linked by the serialized path fill, the round trip preserves the definitions
signature. -/
theorem roundtrip_preserves_referenced_defs_witness :
    ∃ d2, roundTrip ⟨fun _ => none⟩ ⟨96⟩ exDocC10 = some d2 ∧
      d2.defs.length = exDocC10.defs.length ∧
      d2.defs.map (fun e => (e.defsTag, e.defsId)) =
        exDocC10.defs.map (fun e => (e.defsTag, e.defsId)) := by
  cases hct : conv_doc exDocC10 with
  | none =>
    have hs : (conv_doc exDocC10).isSome = true := by with_unfolding_all rfl
    rw [hct] at hs
    exact absurd hs (by decide)
  | some t =>
    have hval : allDefsChildrenReferenced (markReferenced t) = true := by
      have hmap : (conv_doc exDocC10).map
          (fun x => allDefsChildrenReferenced (markReferenced x)) = some true := by
        with_unfolding_all rfl
      rw [hct] at hmap
      simpa using hmap
    exact roundtrip_preserves_referenced_defs _ _ _ t hct hval

end Resvg
